import Mathlib

/-!
# Verification of `extract_results.py` (DedupScandEval)

A shallow embedding of the ScandEval result-extraction script and proofs about
the claims of its specification.

Modelling conventions:
* One input line (after JSON parsing) is a `Record`: the optional `model` and
  `dataset` fields and the `results.total` mapping (absent `results`/`total`
  maps are modelled as the empty mapping, matching `data.get('results',
  {}).get('total', {})`).  Malformed JSON lines and empty lines are outside the
  model: the claims under study quantify over parsed records.
* Python dicts are insertion-ordered association lists (`alookup` is `dict`
  lookup); Python sets are modelled as duplicate-free lists in first-insertion
  order (CPython set iteration order is implementation-defined; no claim
  depends on it).  JSON objects are assumed to have distinct keys.
* JSON numbers are modelled as rationals and Python `round(x, 2)` as exact
  round-half-to-even on the rational value; `f"{x}"` on such a rounded float is
  the shortest decimal form with at least one fractional digit.  (IEEE-754
  double rounding can differ from exact rational rounding only on ties that
  are not exactly representable; no claim depends on such inputs.)
* The inner per-model dict `{"Dataset": [], model_name: []}` is modelled as a
  pair of lists.  This is exact for every model name except the literal string
  "Dataset" (where CPython aliases the two keys); no claim's truth value
  depends on that model name.
-/

namespace DedupScandEval

/-! ## Association lists (Python dicts) and insertion-ordered sets -/

/-- `dict` lookup: first binding of the key wins. -/
def alookup {α β : Type} [DecidableEq α] (k : α) : List (α × β) → Option β
  | [] => none
  | p :: t => if p.1 = k then some p.2 else alookup k t

/-- Add an element to a Python-set model, keeping the first occurrence. -/
def insertNew {α : Type} [DecidableEq α] (xs : List α) (x : α) : List α :=
  if x ∈ xs then xs else xs ++ [x]

/-- The set of elements of `xs`, in first-occurrence order. -/
def dedupKeepFirst {α : Type} [DecidableEq α] (xs : List α) : List α :=
  xs.foldl insertNew []

/-- Update (all bindings of) a key in an association list in place. -/
def modifyA {α β : Type} [DecidableEq α] (xs : List (α × β)) (k : α) (f : β → β) :
    List (α × β) :=
  xs.map (fun p => if p.1 = k then (p.1, f p.2) else p)

/-! ## Python numeric rounding and float formatting -/

/-- Floor of a rational as an integer. -/
def ratFloorZ (q : ℚ) : ℤ := q.num.fdiv q.den

/-- Python `round` to the nearest integer: round half to even. -/
def pyRoundInt (q : ℚ) : ℤ :=
  let f : ℤ := ratFloorZ q
  let frac : ℚ := q - (f : ℚ)
  if frac < 1 / 2 then f
  else if 1 / 2 < frac then f + 1
  else if f % 2 = 0 then f else f + 1

/-- Python `round(q, 2)` as a rational. -/
def round2 (q : ℚ) : ℚ := (pyRoundInt (q * 100) : ℚ) / 100

/-- Fractional digits of `fr/100` (`fr` is taken mod 100) as Python float repr
prints them: trailing zeros dropped, at least one digit. -/
def fracDigits (fr : ℕ) : String :=
  if fr = 0 then "0"
  else if fr % 10 = 0 then toString (fr / 10)
  else (if fr < 10 then "0" else "") ++ toString fr

/-- Render `n/100` the way Python `f"{x}"` renders the float. -/
def fmtHundredths (n : ℤ) : String :=
  (if n < 0 then "-" else "") ++ toString (n.natAbs / 100) ++ "." ++ fracDigits (n.natAbs % 100)

/-- Python `f"{round(q, 2)}"`. -/
def pyRound2Str (q : ℚ) : String := fmtHundredths (pyRoundInt (q * 100))

/-! ## Python string operations -/

/-- Python `sep.join(xs)`. -/
def pyJoin (sep : String) : List String → String
  | [] => ""
  | [x] => x
  | x :: y :: t => x ++ sep ++ pyJoin sep (y :: t)

/-- If `sep` is a prefix of `s`, return the remainder of `s`. -/
def dropSep : List Char → List Char → Option (List Char)
  | [], s => some s
  | _ :: _, [] => none
  | c :: cs, x :: xs => if c = x then dropSep cs xs else none

/-- First occurrence of `sep` in `s`: the part before it and the part after it. -/
def findSep (sep : List Char) : List Char → Option (List Char × List Char)
  | [] => none
  | x :: xs =>
    match dropSep sep (x :: xs) with
    | some rest => some ([], rest)
    | none => (findSep sep xs).map (fun p => (x :: p.1, p.2))

/-- Fuelled worker for Python `str.split(sep)` (`sep` non-empty).  Each found
separator consumes at least one character, so fuel `s.length + 1` is exact. -/
def pySplitAux (sep : List Char) : ℕ → List Char → List (List Char)
  | 0, s => [s]
  | Nat.succ fuel, s =>
    match findSep sep s with
    | none => [s]
    | some (pre, post) => pre :: pySplitAux sep fuel post

/-- Python `s.split(sep)` for a non-empty separator. -/
def pySplit (sep : String) (s : String) : List String :=
  (pySplitAux sep.toList (s.toList.length + 1) s.toList).map (fun l => ⟨l⟩)

/-- Python `sep in s` (substring containment, for non-empty `sep`). -/
def pyContainsSub (s sep : String) : Bool := (findSep sep.toList s.toList).isSome

/-- Python `s.endswith(suff)`. -/
def pyEndsWith (s suff : String) : Bool :=
  (dropSep suff.toList.reverse s.toList.reverse).isSome

/-- Python `s[:-3]`. -/
def pyDropLast3 (s : String) : String := ⟨s.toList.take (s.toList.length - 3)⟩

/-- Digit list to a natural number; `none` on a non-digit. -/
def digitsVal : List Char → Option ℕ
  | [] => some 0
  | c :: cs =>
    if c.isDigit then
      (digitsVal cs).map (fun n => (c.toNat - 48) * 10 ^ cs.length + n)
    else none

/-- Python `float(s)` restricted to plain decimal literals
(`[+-]? digits [. digits]`, at least one digit); `none` models `ValueError`
(in particular `float("") ` raises). -/
def parseFloat (s : String) : Option ℚ :=
  let cs := s.toList
  let sgn : ℚ := if cs.head? = some '-' then -1 else 1
  let body := if cs.head? = some '-' ∨ cs.head? = some '+' then cs.drop 1 else cs
  let ip := body.takeWhile Char.isDigit
  let rest := body.drop ip.length
  match rest with
  | [] =>
    if ip.isEmpty then none
    else (digitsVal ip).map (fun n => sgn * n)
  | '.' :: fp =>
    if ip.isEmpty ∧ fp.isEmpty then none
    else
      match digitsVal ip, digitsVal fp with
      | some n, some m => some (sgn * ((n : ℚ) + (m : ℚ) / 10 ^ fp.length))
      | _, _ => none
  | _ => none

/-! ## Schema registry (`expected_datasets_metrics` and the category lists) -/

/-- Expected datasets and their main metrics. -/
def expected_datasets_metrics : List (String × String) :=
  [("norec", "test_macro_f1"),
   ("norne-nb", "test_micro_f1"),
   ("norne-nn", "test_micro_f1"),
   ("scala-nb", "test_macro_f1"),
   ("scala-nn", "test_macro_f1"),
   ("norquad", "test_f1"),
   ("no-sammendrag", "test_rouge_l"),
   ("mmlu-no", "test_accuracy"),
   ("hellaswag-no", "test_accuracy"),
   ("speed", "Not printed")]

def linguistic_datasets : List String := ["norec", "scala-nn", "no-sammendrag"]

def logical_datasets : List String := ["norquad", "mmlu-no", "hellaswag-no"]

/-! ## Records and the extraction state -/

/-- One parsed JSON line: `data.get('model')`, `data.get('dataset')` and
`data.get('results', {}).get('total', {})`. -/
structure Record where
  model : Option String
  dataset : Option String
  total : List (String × ℚ)
deriving DecidableEq, Repr

/-- The per-model dict `{"Dataset": [...], model_name: [...]}`. -/
structure ModelData where
  datasets : List String
  values : List String
deriving DecidableEq, Repr

/-- The mutable state of `extract_all_results`'s loop. -/
structure ExtractState where
  results : List (Option String × ModelData)
  existing_models : List (Option String)
  unknown_datasets : List (Option String)
  unknown_metrics : List String
  conflicts : List (Option String × List (String × List String))
deriving DecidableEq, Repr

/-- One combined value: `round(base, 2)`, with `" ± " round(se, 2)` appended
when `output_se` is set and a standard error is present. -/
def combinedOne (output_se : Bool) (base : ℚ) (se : Option ℚ) : String :=
  match se, output_se with
  | some s, true => pyRound2Str base ++ " ± " ++ pyRound2Str s
  | _, _ => pyRound2Str base

/-- The `all_metrics` branch: every `_se`-suffixed key whose base key is also
present yields one combined value, in mapping order. -/
def allMetricsList (output_se : Bool) (total : List (String × ℚ)) : List String :=
  total.filterMap (fun kv =>
    if pyEndsWith kv.1 "_se" then
      match alookup (pyDropLast3 kv.1) total with
      | some bv => some (combinedOne output_se bv (some kv.2))
      | none => none
    else none)

/-- The default branch: the schema's primary metric, if present. -/
def defaultList (output_se : Bool) (metric_key : String) (total : List (String × ℚ)) :
    List String :=
  match alookup metric_key total with
  | some bv => [combinedOne output_se bv (alookup (metric_key ++ "_se") total)]
  | none => []

/-- `combined_results` for one line. -/
def combinedList (output_se all_metrics : Bool) (metric_key : String)
    (total : List (String × ℚ)) : List String :=
  if all_metrics then allMetricsList output_se total
  else defaultList output_se metric_key total

/-- Ensure a model has its (initially empty) entry in `results_dict`. -/
def ensureEntry (res : List (Option String × ModelData)) (m : Option String) :
    List (Option String × ModelData) :=
  if (alookup m res).isSome then res else res ++ [(m, ⟨[], []⟩)]

/-- `conflicts.setdefault(m, {}).setdefault(d, []).append(v)`. -/
def addConflict (c : List (Option String × List (String × List String)))
    (m : Option String) (d : String) (v : String) :
    List (Option String × List (String × List String)) :=
  let c1 := if (alookup m c).isSome then c else c ++ [(m, [])]
  modifyA c1 m (fun inn =>
    let inn1 := if (alookup d inn).isSome then inn else inn ++ [(d, [])]
    modifyA inn1 d (fun vs => vs ++ [v]))

/-- Processing of one input line (the body of the `for line in file` loop). -/
def step (output_se all_metrics : Bool) (st : ExtractState) (r : Record) :
    ExtractState :=
  let st1 : ExtractState :=
    { st with existing_models := insertNew st.existing_models r.model }
  match r.dataset with
  | none => { st1 with unknown_datasets := insertNew st1.unknown_datasets none }
  | some d =>
    match alookup d expected_datasets_metrics with
    | none => { st1 with unknown_datasets := insertNew st1.unknown_datasets (some d) }
    | some metric_key =>
      let st2 : ExtractState := { st1 with results := ensureEntry st1.results r.model }
      if d = "speed" then st2
      else
        let st3 : ExtractState :=
          { st2 with unknown_metrics :=
              if all_metrics = false ∧ alookup metric_key r.total = none then
                insertNew st2.unknown_metrics (d ++ ": " ++ metric_key)
              else st2.unknown_metrics }
        let v := pyJoin " / " (combinedList output_se all_metrics metric_key r.total)
        let md := (alookup r.model st3.results).getD ⟨[], []⟩
        if d ∈ md.datasets then
          { st3 with conflicts := addConflict st3.conflicts r.model d v }
        else
          let res := modifyA st3.results r.model
            (fun x => ⟨x.datasets ++ [d], x.values ++ [v]⟩)
          { st3 with results := res }

/-- `extract_all_results`, up to the end of the reading loop (the input file is
given as its list of parsed records). -/
def extract_all_results (output_se all_metrics : Bool) (records : List Record) :
    ExtractState :=
  records.foldl (step output_se all_metrics) ⟨[], [], [], [], []⟩

/-! ## Derived per-record views used to state the invariants -/

/-- The record is processed as a value-producing line for model `m`, dataset
`d`: matching fields, a schema dataset, and not `speed`. -/
def isProc (m : Option String) (d : String) (r : Record) : Bool :=
  decide (r.model = m) && decide (r.dataset = some d) &&
    (alookup d expected_datasets_metrics).isSome && decide (d ≠ "speed")

/-- The formatted value a processed line contributes (a pure function of the
record and the two flags). -/
def lineValue (output_se all_metrics : Bool) (r : Record) : String :=
  (r.dataset.bind (fun d => (alookup d expected_datasets_metrics).map
    (fun metric_key =>
      pyJoin " / " (combinedList output_se all_metrics metric_key r.total)))).getD ""

/-- Formatted values of all processed lines for `(m, d)`, in input order. -/
def procValues (output_se all_metrics : Bool) (m : Option String) (d : String)
    (records : List Record) : List String :=
  (records.filter (isProc m d)).map (lineValue output_se all_metrics)

/-- The dataset of a record when the record is processed for model `m`. -/
def datasetIfProc (m : Option String) (r : Record) : Option String :=
  match r.dataset with
  | some d => if isProc m d r then some d else none
  | none => none

/-- Datasets of all processed lines for model `m`, in input order. -/
def procDatasets (m : Option String) (records : List Record) : List String :=
  records.filterMap (datasetIfProc m)

/-- The record carries a dataset that is a schema key (`speed` included):
exactly the lines that create a `results_dict` entry for their model. -/
def hasSchemaDataset (r : Record) : Bool :=
  match r.dataset with
  | some d => (alookup d expected_datasets_metrics).isSome
  | none => false

/-- The unknown-dataset name a record contributes, if any (a missing `dataset`
field contributes `None`). -/
def unknownOf (r : Record) : Option (Option String) :=
  match r.dataset with
  | none => some none
  | some d =>
    if (alookup d expected_datasets_metrics).isSome then none else some (some d)

/-- The `"<dataset>: <metric>"` entry a record contributes to
`unknown_metrics`, if any (default mode only). -/
def missingOf (all_metrics : Bool) (r : Record) : Option String :=
  if all_metrics then none
  else
    match r.dataset with
    | some d =>
      match alookup d expected_datasets_metrics with
      | some metric_key =>
        if d ≠ "speed" ∧ alookup metric_key r.total = none then
          some (d ++ ": " ++ metric_key)
        else none
      | none => none
    | none => none

/-- `conflicts[m][d]` with the empty list as default. -/
def conflictVals (c : List (Option String × List (String × List String)))
    (m : Option String) (d : String) : List String :=
  ((alookup m c).bind (alookup d)).getD []

/-! ## Summary aggregator (`calculate_summary`) -/

/-- `result.split(" / ")`. -/
def scoreParts (result : String) : List String := pySplit " / " result

/-- `float(part.split(" ± ")[0])` (`none` models `ValueError`). -/
def parseBase (part : String) : Option ℚ :=
  parseFloat ((pySplit " ± " part).headD "")

/-- `float(part.split(" ± ")[1])`, used only under the `" ± " in part` guard. -/
def parseSe (part : String) : Option ℚ :=
  parseFloat ((pySplit " ± " part).getD 1 "")

/-- `" ± " in part`. -/
def hasSeSep (part : String) : Bool := pyContainsSub part " ± "

/-- `[float(part.split(" ± ")[0]) for part in parts]`; `none` when any part
raises `ValueError`. -/
def parseAll (f : String → Option ℚ) : List String → Option (List ℚ)
  | [] => some []
  | x :: xs =>
    match f x, parseAll f xs with
    | some v, some vs => some (v :: vs)
    | _, _ => none

/-- One iteration of the `for dataset, result in zip(...)` loop.  The
accumulator carries `linguistic_scores`, `logical_scores` and the loop-carried
`score_parts` of the most recent iteration; `none` records a raised
`ValueError`. -/
def loopStep (acc : Option (List ℚ × List ℚ × List String)) (row : String × String) :
    Option (List ℚ × List ℚ × List String) :=
  match acc with
  | none => none
  | some (ling, lg, _) =>
    let parts := scoreParts row.2
    match parseAll parseBase parts with
    | none => none
    | some scores =>
      if linguistic_datasets.contains row.1 then some (ling ++ scores, lg, parts)
      else if logical_datasets.contains row.1 then some (ling, lg ++ scores, parts)
      else some (ling, lg, parts)

/-- The whole dataset loop for one model.  The initial `score_parts` is `[]`:
it is only ever read when a score list is non-empty, which forces at least one
iteration, so the initial value is unreachable (in Python the variable would
simply be unbound). -/
def modelLoop (rows : List (String × String)) : Option (List ℚ × List ℚ × List String) :=
  rows.foldl loopStep (some ([], [], []))

/-- `round(sum([float(part.split(" ± ")[1]) for part in score_parts if " ± "
in part]) / len(score_parts), 2)`; `none` models a raised error (`ValueError`
from a bad SE component, or `ZeroDivisionError` — the latter is unreachable
because a split is never empty). -/
def seValue (parts : List String) : Option ℚ :=
  if parts.length = 0 then none
  else
    match parseAll parseSe (parts.filter hasSeSep) with
    | some ses => some (round2 (ses.sum / (parts.length : ℚ)))
    | none => none

/-- The summary entries one category contributes: nothing when its score list
is empty, the average (and, when requested, the SE ratio over the loop-carried
`score_parts`) otherwise. -/
def categoryEntries (output_se : Bool) (label : String) (scores : List ℚ)
    (lastParts : List String) : Option (List (String × ℚ)) :=
  if scores.isEmpty then some []
  else
    let avg := round2 (scores.sum / (scores.length : ℚ))
    if output_se then
      match seValue lastParts with
      | some se => some [(label ++ " Average", avg), (label ++ " SE", se)]
      | none => none
    else some [(label ++ " Average", avg)]

/-- Summary entries for one model (`none` models a raised error). -/
def summarizeModel (output_se : Bool) (md : ModelData) : Option (List (String × ℚ)) :=
  match modelLoop (md.datasets.zip md.values) with
  | none => none
  | some (ling, lg, lastParts) =>
    match categoryEntries output_se "Linguistic" ling lastParts,
          categoryEntries output_se "Logical" lg lastParts with
    | some e1, some e2 => some (e1 ++ e2)
    | _, _ => none

/-- The per-model loop of `calculate_summary`, before dropping models with no
entries. -/
def summarizeAll (output_se : Bool) :
    List (Option String × ModelData) → Option (List (Option String × List (String × ℚ)))
  | [] => some []
  | p :: rest =>
    match summarizeModel output_se p.2, summarizeAll output_se rest with
    | some e, some l => some ((p.1, e) :: l)
    | _, _ => none

/-- `calculate_summary`: per-model category averages (models whose two score
lists are both empty get no key); `none` models an uncaught exception. -/
def calculate_summary (results : List (Option String × ModelData)) (output_se : Bool) :
    Option (List (Option String × List (String × ℚ))) :=
  (summarizeAll output_se results).map (fun l => l.filter (fun p => !p.2.isEmpty))

/-! ## Presenter and `main` -/

/-- Output stream of a printed line. -/
inductive Channel
  | stdout
  | stderr
deriving DecidableEq, Repr

/-- Python `f"{x}"` on an optional string (`None` prints as `"None"`). -/
def pyStr : Option String → String
  | none => "None"
  | some s => s

/-- A single-quote character, as Python list reprs print around strings. -/
def sq : String := String.singleton (Char.ofNat 39)

/-- Python `f"{vs}"` for a list of strings. -/
def pyListRepr (vs : List String) : String :=
  "[" ++ pyJoin ", " (vs.map (fun v => sq ++ v ++ sq)) ++ "]"

/-- One line of the conflict report. -/
def conflictLine (m : Option String) (d : String) (vs : List String) : String :=
  "Model: " ++ pyStr m ++ ", Dataset: " ++ d ++ ", Conflicting Values: " ++ pyListRepr vs

/-- The conflict report printed before `sys.exit(1)` — via `print`, hence on
standard output. -/
def conflictReport (c : List (Option String × List (String × List String))) :
    List (Channel × String) :=
  (Channel.stdout, "Error: Conflicts found for the following models and datasets:") ::
    (c.map (fun p => p.2.map (fun q => (Channel.stdout, conflictLine p.1 q.1 q.2)))).flatten

/-- `', '.join(xs)` over the unknown-dataset set: joining a `None` member
raises `TypeError`, modelled as `none`. -/
def joinUnknown (xs : List (Option String)) : Option String :=
  match xs with
  | [] => some ""
  | none :: _ => none
  | some s :: rest => (joinUnknown rest).map (fun j => if rest.isEmpty then s else s ++ ", " ++ j)

/-- The diagnostic lines printed after a conflict-free pass; `none` models the
`TypeError` raised when the unknown-dataset set contains `None`. -/
def warnLines (st : ExtractState) : Option (List (Channel × String)) :=
  match (if st.unknown_datasets.isEmpty then some (none : Option String)
         else (joinUnknown st.unknown_datasets).map some) with
  | none => none
  | some w1 =>
    let l1 := match w1 with
      | none => []
      | some j => [(Channel.stdout, "Error: Unknown datasets found in the file: " ++ j)]
    let l2 := if st.unknown_metrics.isEmpty then []
      else [(Channel.stdout, "Warning: Missing metrics for some datasets: " ++
              pyJoin ", " st.unknown_metrics)]
    some (l1 ++ l2)

/-- `format_markdown_table`. -/
def format_markdown_table (results : List (Option String × ModelData)) : String :=
  pyJoin "\n\n" (results.map (fun p =>
    (p.2.datasets.zip p.2.values).foldl
      (fun table dr => table ++ "| " ++ dr.1 ++ " | " ++ dr.2 ++ " |\n")
      ("| Dataset | " ++ pyStr p.1 ++ " |\n|:--------|:-------------|\n")))

/-- Modelled from the spec: the body of the plain-text block for one model.
The Python code renders it with `pandas.DataFrame.to_string`, whose exact
column alignment is not in the source under verification; the model keeps one
row per (dataset, value) pair.  No claim depends on this rendering. -/
def plainTableBody (md : ModelData) : String :=
  pyJoin "\n" ((md.datasets.zip md.values).map (fun p => p.1 ++ " " ++ p.2))

/-- `display_nicely`. -/
def displayNicelyLines (results : List (Option String × ModelData)) :
    List (Channel × String) :=
  (results.map (fun p =>
    if p.2.datasets.isEmpty ∧ p.2.values.isEmpty then
      [(Channel.stdout, "Results for " ++ pyStr p.1 ++ " are empty.\n")]
    else
      [(Channel.stdout, "Results for " ++ pyStr p.1 ++ ":\n"),
       (Channel.stdout, plainTableBody p.2), (Channel.stdout, "\n")])).flatten

/-- The dataset tables, in the requested format. -/
def tableLines (markdown : Bool) (results : List (Option String × ModelData)) :
    List (Channel × String) :=
  if markdown then [(Channel.stdout, format_markdown_table results)]
  else displayNicelyLines results

/-- The printed summary block. -/
def summaryLines (summary : List (Option String × List (String × ℚ))) :
    List (Channel × String) :=
  (Channel.stdout, "\nSummary of Scores:") ::
    (summary.map (fun p =>
      (Channel.stdout, "Model: " ++ pyStr p.1) ::
        p.2.map (fun e =>
          (Channel.stdout, "  " ++ e.1 ++ ": " ++ fmtHundredths (pyRoundInt (e.2 * 100)))))).flatten

/-- What a whole run prints, and its exit status. -/
structure RunResult where
  output : List (Channel × String)
  exitCode : ℕ
deriving DecidableEq, Repr

/-- `main`, for a parsed input file.  An uncaught exception is modelled as a
single line naming the exception class on the error stream and exit status 1
(CPython prints the traceback there and exits 1). -/
def runMain (markdown output_se all_metrics no_summary only_summary : Bool)
    (records : List Record) : RunResult :=
  let st := extract_all_results output_se all_metrics records
  if st.conflicts = [] then
    match warnLines st with
    | none => { output := [(Channel.stderr, "TypeError")], exitCode := 1 }
    | some warns =>
      if !no_summary || only_summary then
        match calculate_summary st.results output_se with
        | none => { output := warns ++ [(Channel.stderr, "ValueError")], exitCode := 1 }
        | some summary =>
          let tbl := if !only_summary then tableLines markdown st.results else []
          let sline := if !no_summary then summaryLines summary else []
          { output := warns ++ tbl ++ sline, exitCode := 0 }
      else
        { output := warns ++ (if !only_summary then tableLines markdown st.results else []),
          exitCode := 0 }
  else
    { output := conflictReport st.conflicts, exitCode := 1 }

/-- The inner update `addConflict` applies to the per-model map. -/
def innerAdd (d : String) (v : String) (inn : List (String × List String)) :
    List (String × List String) :=
  modifyA (if (alookup d inn).isSome then inn else inn ++ [(d, [])]) d
    (fun vs => vs ++ [v])

/-- Concatenation on optional score lists (`none` = a raised `ValueError`). -/
def optAppend : Option (List ℚ) → Option (List ℚ) → Option (List ℚ)
  | some a, some b => some (a ++ b)
  | _, _ => none

/-- All base numbers of the given rows, left to right. -/
def basesOfRows : List (String × String) → Option (List ℚ)
  | [] => some []
  | row :: rest => optAppend (parseAll parseBase (scoreParts row.2)) (basesOfRows rest)

/-- The rows whose dataset falls in the linguistic group. -/
def lingRows (rows : List (String × String)) : List (String × String) :=
  rows.filter (fun row => linguistic_datasets.contains row.1)

/-- The rows the `elif` branch sends to the logical group. -/
def logRows (rows : List (String × String)) : List (String × String) :=
  rows.filter (fun row =>
    !(linguistic_datasets.contains row.1) && logical_datasets.contains row.1)

/-! ## The extraction invariant

`CharP` characterises every component of the loop state after processing
`records`: per-model dataset lists are the deduplicated processed datasets in
first-occurrence order, the recorded value of a dataset is the value of its
first processed occurrence, the conflict log holds exactly the values of all
later occurrences, and the two diagnostic sets are the deduplicated
per-record contributions. -/

def CharP (ose am : Bool) (records : List Record) (st : ExtractState) : Prop :=
  (∀ m : Option String, (alookup m st.results).isSome = true ↔
      ∃ r ∈ records, r.model = m ∧ hasSchemaDataset r = true) ∧
  (∀ (m : Option String) (md : ModelData), alookup m st.results = some md →
      md.datasets = dedupKeepFirst (procDatasets m records) ∧
      md.datasets.length = md.values.length ∧
      (∀ d : String, alookup d (md.datasets.zip md.values) =
        (procValues ose am m d records).head?)) ∧
  (∀ (m : Option String) (d : String),
      conflictVals st.conflicts m d = (procValues ose am m d records).tail) ∧
  (st.conflicts = [] ↔ ∀ (m : Option String) (d : String),
      (procValues ose am m d records).tail = []) ∧
  (st.unknown_datasets = dedupKeepFirst (records.filterMap unknownOf)) ∧
  (st.unknown_metrics = dedupKeepFirst (records.filterMap (missingOf am)))

/-- Base numbers contributed to the linguistic group by a model's rows. -/
def lingBases (md : ModelData) : Option (List ℚ) :=
  basesOfRows (lingRows (md.datasets.zip md.values))

/-- Base numbers contributed to the logical group by a model's rows. -/
def logBases (md : ModelData) : Option (List ℚ) :=
  basesOfRows (logRows (md.datasets.zip md.values))

/-! ## Lemmas about the dict and set models -/

theorem alookup_append_some {α β : Type} [DecidableEq α] {k : α} {xs : List (α × β)}
    {v : β} (ys : List (α × β)) (h : alookup k xs = some v) :
    alookup k (xs ++ ys) = some v := by
  induction xs with
  | nil => exact Option.noConfusion h
  | cons p t ih =>
    by_cases hp : p.1 = k
    · simpa [alookup, hp] using h
    · simp only [alookup, hp, if_false, List.cons_append] at h ⊢
      exact ih h

theorem alookup_append_none {α β : Type} [DecidableEq α] {k : α} {xs : List (α × β)}
    (ys : List (α × β)) (h : alookup k xs = none) :
    alookup k (xs ++ ys) = alookup k ys := by
  induction xs with
  | nil => rfl
  | cons p t ih =>
    by_cases hp : p.1 = k
    · simp [alookup, hp] at h
    · simp only [alookup, hp, if_false, List.cons_append] at h ⊢
      exact ih h

theorem alookup_singleton {α β : Type} [DecidableEq α] (k a : α) (b : β) :
    alookup k [(a, b)] = if a = k then some b else none := rfl

theorem alookup_modifyA_self {α β : Type} [DecidableEq α] (xs : List (α × β)) (k : α)
    (f : β → β) : alookup k (modifyA xs k f) = (alookup k xs).map f := by
  induction xs with
  | nil => rfl
  | cons p t ih =>
    simp only [modifyA, List.map_cons] at ih ⊢
    by_cases hp : p.1 = k
    · simp [alookup, hp]
    · simp [alookup, hp, ih]

theorem alookup_modifyA_ne {α β : Type} [DecidableEq α] (xs : List (α × β)) {k k2 : α}
    (f : β → β) (h : k2 ≠ k) : alookup k2 (modifyA xs k f) = alookup k2 xs := by
  induction xs with
  | nil => rfl
  | cons p t ih =>
    obtain ⟨a, b⟩ := p
    simp only [modifyA, List.map_cons] at ih ⊢
    by_cases hp : a = k
    · subst hp
      have hne : ¬(a = k2) := fun hh => h hh.symm
      simp [alookup, hne, ih]
    · by_cases hq : a = k2 <;> simp [alookup, hp, hq, h, ih]

theorem alookup_isSome_ensureEntry (res : List (Option String × ModelData))
    (m m2 : Option String) :
    (alookup m2 (ensureEntry res m)).isSome ↔ (alookup m2 res).isSome ∨ m2 = m := by
  unfold ensureEntry
  by_cases h : (alookup m res).isSome
  · simp only [h, if_true]
    constructor
    · exact fun hh => Or.inl hh
    · rintro (hh | rfl)
      · exact hh
      · exact h
  · have hf : (alookup m res).isSome = false := by simpa using h
    simp only [hf, Bool.false_eq_true, if_false]
    cases hv : alookup m2 res with
    | some v => simp [alookup_append_some _ hv]
    | none =>
      rw [alookup_append_none _ hv]
      by_cases hm : m = m2
      · simp [alookup_singleton, hm]
      · have hm2 : ¬(m2 = m) := fun hh => hm hh.symm
        simp [alookup_singleton, hm, hm2, hv]

theorem alookup_ensureEntry_of_some {res : List (Option String × ModelData)}
    {m2 : Option String} {md : ModelData} (m : Option String)
    (h : alookup m2 res = some md) : alookup m2 (ensureEntry res m) = some md := by
  unfold ensureEntry
  by_cases hp : (alookup m res).isSome
  · simp [hp, h]
  · simp only [hp, if_false]
    exact alookup_append_some _ h

theorem alookup_ensureEntry_self_of_none {res : List (Option String × ModelData)}
    {m : Option String} (h : alookup m res = none) :
    alookup m (ensureEntry res m) = some ⟨[], []⟩ := by
  unfold ensureEntry
  simp only [h, Option.isSome_none, Bool.false_eq_true, if_false]
  rw [alookup_append_none _ h]
  simp [alookup_singleton]

theorem mem_insertNew {α : Type} [DecidableEq α] {a b : α} {xs : List α} :
    a ∈ insertNew xs b ↔ a ∈ xs ∨ a = b := by
  unfold insertNew
  by_cases h : b ∈ xs
  · simp only [h, if_true]
    constructor
    · exact fun hh => Or.inl hh
    · rintro (hh | rfl) <;> assumption
  · simp [h]

theorem nodup_insertNew {α : Type} [DecidableEq α] {xs : List α} (b : α)
    (h : xs.Nodup) : (insertNew xs b).Nodup := by
  unfold insertNew
  by_cases hb : b ∈ xs
  · simp [hb, h]
  · simp [hb, List.nodup_append, h]

theorem insertNew_of_mem {α : Type} [DecidableEq α] {xs : List α} {b : α}
    (h : b ∈ xs) : insertNew xs b = xs := by simp [insertNew, h]

theorem insertNew_of_not_mem {α : Type} [DecidableEq α] {xs : List α} {b : α}
    (h : b ∉ xs) : insertNew xs b = xs ++ [b] := by simp [insertNew, h]

theorem dedupKeepFirst_concat {α : Type} [DecidableEq α] (xs : List α) (b : α) :
    dedupKeepFirst (xs ++ [b]) = insertNew (dedupKeepFirst xs) b := by
  simp [dedupKeepFirst, List.foldl_append]

theorem foldl_insertNew_mem {α : Type} [DecidableEq α] (xs : List α) :
    ∀ (acc : List α) (a : α), a ∈ xs.foldl insertNew acc ↔ a ∈ acc ∨ a ∈ xs := by
  induction xs with
  | nil => simp
  | cons x t ih =>
    intro acc a
    simp only [List.foldl_cons, ih, mem_insertNew, List.mem_cons]
    tauto

theorem mem_dedupKeepFirst {α : Type} [DecidableEq α] {a : α} {xs : List α} :
    a ∈ dedupKeepFirst xs ↔ a ∈ xs := by
  unfold dedupKeepFirst
  rw [foldl_insertNew_mem]
  simp

theorem foldl_insertNew_nodup {α : Type} [DecidableEq α] (xs : List α) :
    ∀ acc : List α, acc.Nodup → (xs.foldl insertNew acc).Nodup := by
  induction xs with
  | nil => exact fun acc h => h
  | cons x t ih =>
    intro acc hacc
    exact ih _ (nodup_insertNew x hacc)

theorem nodup_dedupKeepFirst {α : Type} [DecidableEq α] (xs : List α) :
    (dedupKeepFirst xs).Nodup := foldl_insertNew_nodup xs [] List.nodup_nil

theorem foldl_insertNew_of_nodup {α : Type} [DecidableEq α] (xs : List α) :
    ∀ acc : List α, (acc ++ xs).Nodup → xs.foldl insertNew acc = acc ++ xs := by
  induction xs with
  | nil => simp
  | cons x t ih =>
    intro acc h
    have hx : x ∉ acc := by
      intro hmem
      have := List.disjoint_of_nodup_append h
      exact this hmem (by simp)
    have h2 : (acc ++ [x] ++ t).Nodup := by simpa using h
    simp only [List.foldl_cons, insertNew_of_not_mem hx]
    rw [ih (acc ++ [x]) h2]
    simp

theorem dedupKeepFirst_of_nodup {α : Type} [DecidableEq α] {xs : List α}
    (h : xs.Nodup) : dedupKeepFirst xs = xs := by
  unfold dedupKeepFirst
  rw [foldl_insertNew_of_nodup xs [] (by simpa using h)]
  simp

theorem tail_append_of_ne_nil {α : Type} {xs : List α} (ys : List α) (h : xs ≠ []) :
    (xs ++ ys).tail = xs.tail ++ ys := by
  cases xs with
  | nil => exact absurd rfl h
  | cons x t => simp

theorem head?_append_of_ne_nil {α : Type} {xs : List α} (ys : List α) (h : xs ≠ []) :
    (xs ++ ys).head? = xs.head? := by
  cases xs with
  | nil => exact absurd rfl h
  | cons x t => simp

theorem alookup_modifyA_isSome {α β : Type} [DecidableEq α] (xs : List (α × β))
    (k : α) (f : β → β) (m2 : α) :
    (alookup m2 (modifyA xs k f)).isSome = (alookup m2 xs).isSome := by
  by_cases h : m2 = k
  · subst h
    rw [alookup_modifyA_self]
    cases alookup m2 xs <;> rfl
  · rw [alookup_modifyA_ne _ _ h]

theorem alookup_ensureEntry_cases {res : List (Option String × ModelData)}
    {m m2 : Option String} {md : ModelData}
    (h : alookup m2 (ensureEntry res m) = some md) :
    alookup m2 res = some md ∨
      (alookup m2 res = none ∧ m2 = m ∧ md = ⟨[], []⟩) := by
  unfold ensureEntry at h
  by_cases hs : (alookup m res).isSome = true
  · left
    simpa [hs] using h
  · have hf : (alookup m res).isSome = false := by simpa using hs
    rw [hf] at h
    simp only [Bool.false_eq_true, if_false] at h
    cases hv : alookup m2 res with
    | some v =>
      left
      rw [alookup_append_some _ hv] at h
      exact h
    | none =>
      right
      rw [alookup_append_none _ hv, alookup_singleton] at h
      by_cases hm : m = m2
      · refine ⟨rfl, hm.symm, ?_⟩
        rw [if_pos hm] at h
        exact (Option.some_inj.mp h).symm
      · rw [if_neg hm] at h
        exact Option.noConfusion h

/-! ## Lemmas about the per-record views -/

theorem extract_concat (ose am : Bool) (rs : List Record) (r : Record) :
    extract_all_results ose am (rs ++ [r]) =
      step ose am (extract_all_results ose am rs) r := by
  simp [extract_all_results, List.foldl_append]

theorem isProc_iff {m : Option String} {d : String} {r : Record} :
    isProc m d r = true ↔
      r.model = m ∧ r.dataset = some d ∧
        (alookup d expected_datasets_metrics).isSome = true ∧ d ≠ "speed" := by
  simp [isProc, Bool.and_eq_true, decide_eq_true_eq, and_assoc]

theorem datasetIfProc_eq_some {m : Option String} {r : Record} {d : String} :
    datasetIfProc m r = some d ↔ isProc m d r = true := by
  unfold datasetIfProc
  cases hd : r.dataset with
  | none =>
    constructor
    · intro h
      exact Option.noConfusion h
    · intro h
      rw [(isProc_iff.mp h).2.1] at hd
      exact Option.noConfusion hd
  | some d0 =>
    by_cases hp : isProc m d0 r = true
    · simp only [hp, if_true, Option.some_inj]
      constructor
      · rintro rfl
        exact hp
      · intro h
        have h2 := (isProc_iff.mp h).2.1
        rw [hd] at h2
        exact Option.some_inj.mp h2
    · have hne : isProc m d r ≠ true := by
        intro h
        have h2 := (isProc_iff.mp h).2.1
        rw [hd] at h2
        obtain rfl := Option.some_inj.mp h2
        exact hp h
      simp [hp, hne]

theorem mem_procDatasets {m : Option String} {d : String} {rs : List Record} :
    d ∈ procDatasets m rs ↔ ∃ r ∈ rs, isProc m d r = true := by
  simp only [procDatasets, List.mem_filterMap, datasetIfProc_eq_some]

theorem procValues_eq_nil_iff {ose am : Bool} {m : Option String} {d : String}
    {rs : List Record} :
    procValues ose am m d rs = [] ↔ ∀ r ∈ rs, ¬(isProc m d r = true) := by
  unfold procValues
  rw [List.map_eq_nil_iff, List.filter_eq_nil_iff]

theorem procValues_ne_nil_iff {ose am : Bool} {m : Option String} {d : String}
    {rs : List Record} :
    procValues ose am m d rs ≠ [] ↔ d ∈ procDatasets m rs := by
  rw [mem_procDatasets, Ne, procValues_eq_nil_iff]
  push_neg
  simp

theorem procValues_concat (ose am : Bool) (m : Option String) (d : String)
    (rs : List Record) (r : Record) :
    procValues ose am m d (rs ++ [r]) =
      procValues ose am m d rs ++
        (if isProc m d r = true then [lineValue ose am r] else []) := by
  unfold procValues
  rw [List.filter_append, List.map_append]
  cases h : isProc m d r <;> simp [h]

theorem procDatasets_concat (m : Option String) (rs : List Record) (r : Record) :
    procDatasets m (rs ++ [r]) = procDatasets m rs ++ (datasetIfProc m r).toList := by
  unfold procDatasets
  rw [List.filterMap_append]
  cases h : datasetIfProc m r <;> simp [h]

theorem procDatasets_nil_of_no_schema {m : Option String} {rs : List Record}
    (h : ∀ r ∈ rs, ¬(r.model = m ∧ hasSchemaDataset r = true)) :
    procDatasets m rs = [] := by
  unfold procDatasets
  rw [List.filterMap_eq_nil_iff]
  intro r hr
  cases hdip : datasetIfProc m r with
  | none => rfl
  | some d0 =>
    exfalso
    obtain ⟨hm, hd, hs, _⟩ := isProc_iff.mp (datasetIfProc_eq_some.mp hdip)
    exact h r hr ⟨hm, by simp [hasSchemaDataset, hd, hs]⟩

theorem procValues_nil_of_no_schema {ose am : Bool} {m : Option String} {d : String}
    {rs : List Record}
    (h : ∀ r ∈ rs, ¬(r.model = m ∧ hasSchemaDataset r = true)) :
    procValues ose am m d rs = [] := by
  rw [procValues_eq_nil_iff]
  intro r hr hp
  obtain ⟨hm, hd, hs, _⟩ := isProc_iff.mp hp
  exact h r hr ⟨hm, by simp [hasSchemaDataset, hd, hs]⟩

theorem lineValue_processed {ose am : Bool} {r : Record} {d metric_key : String}
    (hd : r.dataset = some d)
    (hmk : alookup d expected_datasets_metrics = some metric_key) :
    lineValue ose am r = pyJoin " / " (combinedList ose am metric_key r.total) := by
  simp [lineValue, hd, hmk]

theorem addConflict_ne_nil (c : List (Option String × List (String × List String)))
    (m : Option String) (d : String) (v : String) : addConflict c m d v ≠ [] := by
  unfold addConflict
  by_cases hc : (alookup m c).isSome = true
  · cases c with
    | nil => simp [alookup] at hc
    | cons p t => simp [hc, modifyA]
  · have hf : (alookup m c).isSome = false := by simpa using hc
    simp [hf, modifyA]

theorem addConflict_eq (c : List (Option String × List (String × List String)))
    (m : Option String) (d : String) (v : String) :
    addConflict c m d v =
      modifyA (if (alookup m c).isSome then c else c ++ [(m, [])]) m (innerAdd d v) :=
  rfl

theorem alookup_innerAdd (d v : String) (inn : List (String × List String))
    (d2 : String) :
    alookup d2 (innerAdd d v inn) =
      if d2 = d then some (((alookup d inn).getD []) ++ [v])
      else alookup d2 inn := by
  unfold innerAdd
  by_cases hd2 : d2 = d
  · subst hd2
    rw [if_pos rfl, alookup_modifyA_self]
    cases hv : alookup d2 inn with
    | some l => simp [hv]
    | none =>
      simp only [Option.isSome_none, Bool.false_eq_true, if_false]
      rw [alookup_append_none _ hv, alookup_singleton]
      simp
  · rw [if_neg hd2, alookup_modifyA_ne _ _ hd2]
    by_cases hs : (alookup d inn).isSome = true
    · rw [if_pos hs]
    · have hf : (alookup d inn).isSome = false := by simpa using hs
      rw [hf]
      simp only [Bool.false_eq_true, if_false]
      cases hv : alookup d2 inn with
      | some l => rw [alookup_append_some _ hv]
      | none =>
        rw [alookup_append_none _ hv, alookup_singleton,
          if_neg (fun hh : d = d2 => hd2 hh.symm)]

theorem alookup_addConflict (c : List (Option String × List (String × List String)))
    (m : Option String) (d : String) (v : String) (m2 : Option String) :
    alookup m2 (addConflict c m d v) =
      if m2 = m then some (innerAdd d v ((alookup m c).getD []))
      else alookup m2 c := by
  rw [addConflict_eq]
  by_cases hm : m2 = m
  · subst hm
    rw [if_pos rfl, alookup_modifyA_self]
    cases hv : alookup m2 c with
    | some inn => simp [hv]
    | none =>
      simp only [Option.isSome_none, Bool.false_eq_true, if_false]
      rw [alookup_append_none _ hv, alookup_singleton]
      simp
  · rw [if_neg hm, alookup_modifyA_ne _ _ hm]
    by_cases hs : (alookup m c).isSome = true
    · rw [if_pos hs]
    · have hf : (alookup m c).isSome = false := by simpa using hs
      rw [hf]
      simp only [Bool.false_eq_true, if_false]
      cases hv : alookup m2 c with
      | some l => rw [alookup_append_some _ hv]
      | none =>
        rw [alookup_append_none _ hv, alookup_singleton,
          if_neg (fun hh : m = m2 => hm hh.symm)]

theorem alookup_getD_conflictVals (c : List (Option String × List (String × List String)))
    (m : Option String) (d : String) :
    (alookup d ((alookup m c).getD [])).getD [] = conflictVals c m d := by
  unfold conflictVals
  cases hv : alookup m c with
  | some inn => simp
  | none => simp [alookup]

theorem conflictVals_addConflict (c : List (Option String × List (String × List String)))
    (m : Option String) (d : String) (v : String) (m2 : Option String) (d2 : String) :
    conflictVals (addConflict c m d v) m2 d2 =
      if m2 = m ∧ d2 = d then conflictVals c m d ++ [v]
      else conflictVals c m2 d2 := by
  unfold conflictVals
  rw [alookup_addConflict]
  by_cases hm : m2 = m
  · rw [if_pos hm]
    simp only [Option.some_bind]
    rw [alookup_innerAdd]
    by_cases hd2 : d2 = d
    · rw [if_pos hd2, if_pos ⟨hm, hd2⟩]
      simp only [Option.getD_some]
      rw [alookup_getD_conflictVals]
      rfl
    · rw [if_neg hd2, if_neg (fun hh => hd2 hh.2), alookup_getD_conflictVals, hm]
      rfl
  · rw [if_neg hm, if_neg (fun hh => hm hh.1)]

theorem exists_mem_concat {α : Type} {P : α → Prop} {xs : List α} {y : α} :
    (∃ x ∈ xs ++ [y], P x) ↔ (∃ x ∈ xs, P x) ∨ P y := by
  constructor
  · rintro ⟨x, hx, hP⟩
    rcases List.mem_append.mp hx with h | h
    · exact Or.inl ⟨x, h, hP⟩
    · rcases List.mem_singleton.mp h with rfl
      exact Or.inr hP
  · rintro (⟨x, hx, hP⟩ | hP)
    · exact ⟨x, List.mem_append.mpr (Or.inl hx), hP⟩
    · exact ⟨y, List.mem_append.mpr (Or.inr (List.mem_singleton.mpr rfl)), hP⟩

theorem charP_step (ose am : Bool) (rs : List Record) (r : Record) (st : ExtractState)
    (ih : CharP ose am rs st) : CharP ose am (rs ++ [r]) (step ose am st r) := by
  obtain ⟨ih1, ih2, ih3, ih4, ih5, ih6⟩ := ih
  cases hd : r.dataset with
  | none =>
    have hds : hasSchemaDataset r = false := by simp [hasSchemaDataset, hd]
    have hskip : ∀ (m : Option String) (d : String), isProc m d r = false := by
      intro m d
      cases hp : isProc m d r
      · rfl
      · exfalso
        have h2 := (isProc_iff.mp hp).2.1
        rw [hd] at h2
        exact Option.noConfusion h2
    have hpv : ∀ (m : Option String) (d : String),
        procValues ose am m d (rs ++ [r]) = procValues ose am m d rs := by
      intro m d
      rw [procValues_concat]
      simp [hskip m d]
    have hpd : ∀ m : Option String, procDatasets m (rs ++ [r]) = procDatasets m rs := by
      intro m
      rw [procDatasets_concat]
      have hnone : datasetIfProc m r = none := by
        cases hdd : datasetIfProc m r with
        | none => rfl
        | some d0 =>
          have := datasetIfProc_eq_some.mp hdd
          rw [hskip m d0] at this
          exact Bool.noConfusion this
      simp [hnone]
    have huk : unknownOf r = some none := by simp [unknownOf, hd]
    have hmm : missingOf am r = none := by simp [missingOf, hd]
    simp only [step, hd]
    refine ⟨?_, ?_, ?_, ?_, ?_, ?_⟩
    · intro m
      rw [exists_mem_concat]
      simp only [hds, Bool.false_eq_true, and_false, or_false]
      exact ih1 m
    · intro m md hmd
      obtain ⟨h1, h2, h3⟩ := ih2 m md hmd
      exact ⟨by rw [hpd m]; exact h1, h2, fun d => by rw [hpv m d]; exact h3 d⟩
    · intro m d
      rw [hpv m d]
      exact ih3 m d
    · constructor
      · intro h m d
        rw [hpv m d]
        exact (ih4.mp h) m d
      · intro h
        exact ih4.mpr (fun m d => by rw [← hpv m d]; exact h m d)
    · have hfm : List.filterMap unknownOf [r] = [none] := by simp [huk]
      rw [List.filterMap_append, hfm, dedupKeepFirst_concat, ← ih5]
    · have hfm : List.filterMap (missingOf am) [r] = [] := by simp [hmm]
      rw [List.filterMap_append, hfm, List.append_nil, ← ih6]
  | some d0 =>
    cases hlk : alookup d0 expected_datasets_metrics with
    | none =>
      have hds : hasSchemaDataset r = false := by simp [hasSchemaDataset, hd, hlk]
      have hskip : ∀ (m : Option String) (d : String), isProc m d r = false := by
        intro m d
        cases hp : isProc m d r
        · rfl
        · exfalso
          obtain ⟨_, h2, h3, _⟩ := isProc_iff.mp hp
          rw [hd] at h2
          obtain rfl := Option.some_inj.mp h2
          rw [hlk] at h3
          exact Bool.noConfusion h3
      have hpv : ∀ (m : Option String) (d : String),
          procValues ose am m d (rs ++ [r]) = procValues ose am m d rs := by
        intro m d
        rw [procValues_concat]
        simp [hskip m d]
      have hpd : ∀ m : Option String, procDatasets m (rs ++ [r]) = procDatasets m rs := by
        intro m
        rw [procDatasets_concat]
        have hnone : datasetIfProc m r = none := by
          cases hdd : datasetIfProc m r with
          | none => rfl
          | some d1 =>
            have := datasetIfProc_eq_some.mp hdd
            rw [hskip m d1] at this
            exact Bool.noConfusion this
        simp [hnone]
      have huk : unknownOf r = some (some d0) := by simp [unknownOf, hd, hlk]
      have hmm : missingOf am r = none := by simp [missingOf, hd, hlk]
      simp only [step, hd, hlk]
      refine ⟨?_, ?_, ?_, ?_, ?_, ?_⟩
      · intro m
        rw [exists_mem_concat]
        simp only [hds, Bool.false_eq_true, and_false, or_false]
        exact ih1 m
      · intro m md hmd
        obtain ⟨h1, h2, h3⟩ := ih2 m md hmd
        exact ⟨by rw [hpd m]; exact h1, h2, fun d => by rw [hpv m d]; exact h3 d⟩
      · intro m d
        rw [hpv m d]
        exact ih3 m d
      · constructor
        · intro h m d
          rw [hpv m d]
          exact (ih4.mp h) m d
        · intro h
          exact ih4.mpr (fun m d => by rw [← hpv m d]; exact h m d)
      · have hfm : List.filterMap unknownOf [r] = [some d0] := by simp [huk]
        rw [List.filterMap_append, hfm, dedupKeepFirst_concat, ← ih5]
      · have hfm : List.filterMap (missingOf am) [r] = [] := by simp [hmm]
        rw [List.filterMap_append, hfm, List.append_nil, ← ih6]
    | some mk =>
      have hds : hasSchemaDataset r = true := by simp [hasSchemaDataset, hd, hlk]
      have huk : unknownOf r = none := by simp [unknownOf, hd, hlk]
      by_cases hsp : d0 = "speed"
      · subst hsp
        have hskip : ∀ (m : Option String) (d : String), isProc m d r = false := by
          intro m d
          cases hp : isProc m d r
          · rfl
          · exfalso
            obtain ⟨_, h2, _, h4⟩ := isProc_iff.mp hp
            rw [hd] at h2
            exact h4 (Option.some_inj.mp h2).symm
        have hpv : ∀ (m : Option String) (d : String),
            procValues ose am m d (rs ++ [r]) = procValues ose am m d rs := by
          intro m d
          rw [procValues_concat]
          simp [hskip m d]
        have hpd : ∀ m : Option String, procDatasets m (rs ++ [r]) = procDatasets m rs := by
          intro m
          rw [procDatasets_concat]
          have hnone : datasetIfProc m r = none := by
            cases hdd : datasetIfProc m r with
            | none => rfl
            | some d1 =>
              have := datasetIfProc_eq_some.mp hdd
              rw [hskip m d1] at this
              exact Bool.noConfusion this
          simp [hnone]
        have hmm : missingOf am r = none := by simp [missingOf, hd, hlk]
        have hstep : step ose am st r =
            { results := ensureEntry st.results r.model,
              existing_models := insertNew st.existing_models r.model,
              unknown_datasets := st.unknown_datasets,
              unknown_metrics := st.unknown_metrics,
              conflicts := st.conflicts } := by
          simp only [step, hd, hlk]
          rw [if_true]
        rw [hstep]
        refine ⟨?_, ?_, ?_, ?_, ?_, ?_⟩
        · intro m
          rw [exists_mem_concat]
          rw [alookup_isSome_ensureEntry, ih1 m]
          simp only [hds, and_true]
          constructor
          · rintro (h | h)
            · exact Or.inl h
            · exact Or.inr h.symm
          · rintro (h | h)
            · exact Or.inl h
            · exact Or.inr h.symm
        · intro m md hmd
          rcases alookup_ensureEntry_cases hmd with hprev | ⟨hnone, rfl, rfl⟩
          · obtain ⟨h1, h2, h3⟩ := ih2 m md hprev
            exact ⟨by rw [hpd m]; exact h1, h2, fun d => by rw [hpv m d]; exact h3 d⟩
          · have hne : ∀ r2 ∈ rs, ¬(r2.model = r.model ∧ hasSchemaDataset r2 = true) := by
              intro r2 hr2 hP
              have := (ih1 r.model).mpr ⟨r2, hr2, hP⟩
              rw [hnone] at this
              exact Bool.noConfusion this
            refine ⟨?_, rfl, ?_⟩
            · rw [hpd r.model, procDatasets_nil_of_no_schema hne]
              rfl
            · intro d
              rw [hpv r.model d, procValues_nil_of_no_schema hne]
              rfl
        · intro m d
          rw [hpv m d]
          exact ih3 m d
        · constructor
          · intro h m d
            rw [hpv m d]
            exact (ih4.mp h) m d
          · intro h
            exact ih4.mpr (fun m d => by rw [← hpv m d]; exact h m d)
        · have hfm : List.filterMap unknownOf [r] = [] := by simp [huk]
          rw [List.filterMap_append, hfm, List.append_nil, ← ih5]
        · have hfm : List.filterMap (missingOf am) [r] = [] := by simp [hmm]
          rw [List.filterMap_append, hfm, List.append_nil, ← ih6]
      · -- the main, value-producing case
        have hproc : ∀ (m : Option String) (d : String),
            isProc m d r = true ↔ (m = r.model ∧ d = d0) := by
          intro m d
          constructor
          · intro h
            obtain ⟨h1, h2, _, _⟩ := isProc_iff.mp h
            rw [hd] at h2
            exact ⟨h1.symm, (Option.some_inj.mp h2).symm⟩
          · rintro ⟨rfl, rfl⟩
            exact isProc_iff.mpr ⟨rfl, hd, by simp [hlk], hsp⟩
        have hlv : lineValue ose am r =
            pyJoin " / " (combinedList ose am mk r.total) :=
          lineValue_processed hd hlk
        have hmm : missingOf am r =
            if am = false ∧ alookup mk r.total = none
            then some (d0 ++ ": " ++ mk) else none := by
          cases am with
          | true => simp [missingOf]
          | false => simp [missingOf, hd, hlk, hsp]
        have hpv : ∀ (m : Option String) (d : String),
            procValues ose am m d (rs ++ [r]) = procValues ose am m d rs ++
              (if m = r.model ∧ d = d0
               then [pyJoin " / " (combinedList ose am mk r.total)] else []) := by
          intro m d
          rw [procValues_concat]
          by_cases hc : m = r.model ∧ d = d0
          · rw [if_pos hc, if_pos ((hproc m d).mpr hc), hlv]
          · rw [if_neg hc, if_neg (by
              intro hp
              exact hc ((hproc m d).mp hp))]
        have hpd : ∀ m : Option String, procDatasets m (rs ++ [r]) =
            procDatasets m rs ++ (if m = r.model then [d0] else []) := by
          intro m
          rw [procDatasets_concat]
          by_cases hc : m = r.model
          · have : datasetIfProc m r = some d0 :=
              datasetIfProc_eq_some.mpr ((hproc m d0).mpr ⟨hc, rfl⟩)
            rw [if_pos hc, this]
            rfl
          · have : datasetIfProc m r = none := by
              cases hdd : datasetIfProc m r with
              | none => rfl
              | some d1 =>
                have := (hproc m d1).mp (datasetIfProc_eq_some.mp hdd)
                exact absurd this.1 hc
            rw [if_neg hc, this]
            rfl
        have hmd0 : ∃ md0 : ModelData,
            alookup r.model (ensureEntry st.results r.model) = some md0 ∧
            md0.datasets = dedupKeepFirst (procDatasets r.model rs) ∧
            md0.datasets.length = md0.values.length ∧
            (∀ d : String, alookup d (md0.datasets.zip md0.values) =
              (procValues ose am r.model d rs).head?) := by
          cases hv : alookup r.model st.results with
          | some md1 =>
            obtain ⟨h1, h2, h3⟩ := ih2 r.model md1 hv
            exact ⟨md1, alookup_ensureEntry_of_some _ hv, h1, h2, h3⟩
          | none =>
            have hne : ∀ r2 ∈ rs, ¬(r2.model = r.model ∧ hasSchemaDataset r2 = true) := by
              intro r2 hr2 hP
              have := (ih1 r.model).mpr ⟨r2, hr2, hP⟩
              rw [hv] at this
              exact Bool.noConfusion this
            refine ⟨⟨[], []⟩, alookup_ensureEntry_self_of_none hv, ?_, rfl, ?_⟩
            · rw [procDatasets_nil_of_no_schema hne]
              rfl
            · intro d
              rw [procValues_nil_of_no_schema hne]
              rfl
        obtain ⟨md0, halk, hmds, hmdl, hmdv⟩ := hmd0
        -- conjunct 1, for the two possible result structures
        have hc1_ens : ∀ m : Option String,
            (alookup m (ensureEntry st.results r.model)).isSome = true ↔
              ∃ r2 ∈ rs ++ [r], r2.model = m ∧ hasSchemaDataset r2 = true := by
          intro m
          rw [exists_mem_concat, alookup_isSome_ensureEntry, ih1 m]
          simp only [hds, and_true]
          constructor
          · rintro (h | h)
            · exact Or.inl h
            · exact Or.inr h.symm
          · rintro (h | h)
            · exact Or.inl h
            · exact Or.inr h.symm
        -- conjunct 5, shared by all branches
        have hc5 : st.unknown_datasets =
            dedupKeepFirst ((rs ++ [r]).filterMap unknownOf) := by
          have hfm : List.filterMap unknownOf [r] = [] := by simp [huk]
          rw [List.filterMap_append, hfm, List.append_nil, ← ih5]
        -- conjunct 6, for the two unknown-metric branches
        have hc6 : (if am = false ∧ alookup mk r.total = none
              then insertNew st.unknown_metrics (d0 ++ ": " ++ mk)
              else st.unknown_metrics) =
            dedupKeepFirst ((rs ++ [r]).filterMap (missingOf am)) := by
          rw [List.filterMap_append]
          by_cases hcond : am = false ∧ alookup mk r.total = none
          · have hone : missingOf am r = some (d0 ++ ": " ++ mk) := by
              rw [hmm, if_pos hcond]
            have hfm : List.filterMap (missingOf am) [r] = [d0 ++ ": " ++ mk] := by
              simp [hone]
            rw [if_pos hcond, hfm, dedupKeepFirst_concat, ← ih6]
          · have hone : missingOf am r = none := by
              rw [hmm, if_neg hcond]
            have hfm : List.filterMap (missingOf am) [r] = [] := by
              simp [hone]
            rw [if_neg hcond, hfm, List.append_nil, ← ih6]
        by_cases hdmem : d0 ∈ md0.datasets
        · -- duplicate (model, dataset): the line goes to the conflict log
          have hne0 : procValues ose am r.model d0 rs ≠ [] := by
            rw [procValues_ne_nil_iff, ← mem_dedupKeepFirst, ← hmds]
            exact hdmem
          have hres : ∀ (m : Option String) (md : ModelData),
              alookup m (ensureEntry st.results r.model) = some md →
              md.datasets = dedupKeepFirst (procDatasets m (rs ++ [r])) ∧
              md.datasets.length = md.values.length ∧
              (∀ d : String, alookup d (md.datasets.zip md.values) =
                (procValues ose am m d (rs ++ [r])).head?) := by
            intro m md hmd
            by_cases hm : m = r.model
            · subst hm
              rw [halk] at hmd
              obtain rfl := Option.some_inj.mp hmd
              refine ⟨?_, hmdl, ?_⟩
              · rw [hpd r.model, if_pos rfl, dedupKeepFirst_concat, ← hmds,
                  insertNew_of_mem hdmem]
              · intro d
                rw [hpv r.model d]
                by_cases hdd : d = d0
                · subst hdd
                  rw [if_pos ⟨rfl, rfl⟩, head?_append_of_ne_nil _ hne0]
                  exact hmdv d
                · rw [if_neg (fun hh => hdd hh.2), List.append_nil]
                  exact hmdv d
            · rcases alookup_ensureEntry_cases hmd with hprev | ⟨_, hcontra, _⟩
              · obtain ⟨h1, h2, h3⟩ := ih2 m md hprev
                refine ⟨?_, h2, ?_⟩
                · rw [hpd m, if_neg hm, List.append_nil]
                  exact h1
                · intro d
                  rw [hpv m d, if_neg (fun hh => hm hh.1), List.append_nil]
                  exact h3 d
              · exact absurd hcontra hm
          have hc3 : ∀ (m : Option String) (d : String),
              conflictVals (addConflict st.conflicts r.model d0
                (pyJoin " / " (combinedList ose am mk r.total))) m d =
              (procValues ose am m d (rs ++ [r])).tail := by
            intro m d
            rw [conflictVals_addConflict, hpv m d]
            by_cases hc : m = r.model ∧ d = d0
            · obtain ⟨rfl, rfl⟩ := hc
              rw [if_pos ⟨rfl, rfl⟩, if_pos ⟨rfl, rfl⟩,
                tail_append_of_ne_nil _ hne0, ih3 r.model d]
            · rw [if_neg hc, if_neg hc, List.append_nil]
              exact ih3 m d
          have hc4 : addConflict st.conflicts r.model d0
                (pyJoin " / " (combinedList ose am mk r.total)) = [] ↔
              ∀ (m : Option String) (d : String),
                (procValues ose am m d (rs ++ [r])).tail = [] := by
            constructor
            · intro h
              exact absurd h (addConflict_ne_nil _ _ _ _)
            · intro h
              exfalso
              have := h r.model d0
              rw [hpv r.model d0, if_pos ⟨rfl, rfl⟩,
                tail_append_of_ne_nil _ hne0] at this
              simp at this
          have hstep : step ose am st r =
              { results := ensureEntry st.results r.model,
                existing_models := insertNew st.existing_models r.model,
                unknown_datasets := st.unknown_datasets,
                unknown_metrics :=
                  if am = false ∧ alookup mk r.total = none
                  then insertNew st.unknown_metrics (d0 ++ ": " ++ mk)
                  else st.unknown_metrics,
                conflicts := addConflict st.conflicts r.model d0
                  (pyJoin " / " (combinedList ose am mk r.total)) } := by
            simp only [step, hd, hlk]
            rw [if_neg hsp, halk]
            simp only [Option.getD_some]
            rw [if_pos hdmem]
          rw [hstep]
          exact ⟨hc1_ens, hres, hc3, hc4, hc5, hc6⟩
        · -- first occurrence: the pair is appended to the model's lists
          have hold : procValues ose am r.model d0 rs = [] := by
            by_contra h
            exact hdmem (hmds ▸ mem_dedupKeepFirst.mpr
              (procValues_ne_nil_iff.mp h))
          have hc1_mod : ∀ m : Option String,
              (alookup m (modifyA (ensureEntry st.results r.model) r.model
                (fun x => ⟨x.datasets ++ [d0],
                  x.values ++ [pyJoin " / " (combinedList ose am mk r.total)]⟩))).isSome
                = true ↔
              ∃ r2 ∈ rs ++ [r], r2.model = m ∧ hasSchemaDataset r2 = true := by
            intro m
            rw [alookup_modifyA_isSome]
            exact hc1_ens m
          have hres : ∀ (m : Option String) (md : ModelData),
              alookup m (modifyA (ensureEntry st.results r.model) r.model
                (fun x => ⟨x.datasets ++ [d0],
                  x.values ++ [pyJoin " / " (combinedList ose am mk r.total)]⟩)) =
                some md →
              md.datasets = dedupKeepFirst (procDatasets m (rs ++ [r])) ∧
              md.datasets.length = md.values.length ∧
              (∀ d : String, alookup d (md.datasets.zip md.values) =
                (procValues ose am m d (rs ++ [r])).head?) := by
            intro m md hmd
            by_cases hm : m = r.model
            · subst hm
              rw [alookup_modifyA_self, halk] at hmd
              simp only [Option.map_some'] at hmd
              obtain rfl := Option.some_inj.mp hmd
              have hdnew : d0 ∉ dedupKeepFirst (procDatasets r.model rs) := by
                rw [← hmds]
                exact hdmem
              refine ⟨?_, by simp [hmdl], ?_⟩
              · rw [hpd r.model, if_pos rfl, dedupKeepFirst_concat,
                  insertNew_of_not_mem hdnew, ← hmds]
              · intro d
                rw [List.zip_append hmdl, hpv r.model d]
                by_cases hdd : d = d0
                · subst hdd
                  have hza : alookup d (md0.datasets.zip md0.values) = none := by
                    rw [hmdv d, hold]
                    rfl
                  rw [alookup_append_none _ hza, if_pos ⟨rfl, rfl⟩, hold]
                  have hz : [d].zip [pyJoin " / " (combinedList ose am mk r.total)] =
                      [(d, pyJoin " / " (combinedList ose am mk r.total))] := rfl
                  rw [hz, alookup_singleton, if_pos rfl]
                  rfl
                · rw [if_neg (fun hh => hdd hh.2), List.append_nil]
                  cases hv : alookup d (md0.datasets.zip md0.values) with
                  | some v1 =>
                    rw [alookup_append_some _ hv, ← hv]
                    exact hmdv d
                  | none =>
                    rw [alookup_append_none _ hv]
                    have hz : [d0].zip [pyJoin " / " (combinedList ose am mk r.total)] =
                        [(d0, pyJoin " / " (combinedList ose am mk r.total))] := rfl
                    rw [hz, alookup_singleton,
                      if_neg (fun hh : d0 = d => hdd hh.symm), ← hv]
                    exact hmdv d
            · rw [alookup_modifyA_ne _ _ hm] at hmd
              rcases alookup_ensureEntry_cases hmd with hprev | ⟨_, hcontra, _⟩
              · obtain ⟨h1, h2, h3⟩ := ih2 m md hprev
                refine ⟨?_, h2, ?_⟩
                · rw [hpd m, if_neg hm, List.append_nil]
                  exact h1
                · intro d
                  rw [hpv m d, if_neg (fun hh => hm hh.1), List.append_nil]
                  exact h3 d
              · exact absurd hcontra hm
          have hc3 : ∀ (m : Option String) (d : String),
              conflictVals st.conflicts m d =
                (procValues ose am m d (rs ++ [r])).tail := by
            intro m d
            rw [hpv m d]
            by_cases hc : m = r.model ∧ d = d0
            · obtain ⟨rfl, rfl⟩ := hc
              rw [if_pos ⟨rfl, rfl⟩, hold, ih3 r.model d, hold]
              rfl
            · rw [if_neg hc, List.append_nil]
              exact ih3 m d
          have hc4 : st.conflicts = [] ↔
              ∀ (m : Option String) (d : String),
                (procValues ose am m d (rs ++ [r])).tail = [] := by
            constructor
            · intro h m d
              rw [hpv m d]
              by_cases hc : m = r.model ∧ d = d0
              · obtain ⟨rfl, rfl⟩ := hc
                rw [if_pos ⟨rfl, rfl⟩, hold]
                rfl
              · rw [if_neg hc, List.append_nil]
                exact ih4.mp h m d
            · intro h
              apply ih4.mpr
              intro m d
              by_cases hc : m = r.model ∧ d = d0
              · obtain ⟨rfl, rfl⟩ := hc
                rw [hold]
                rfl
              · have := h m d
                rw [hpv m d, if_neg hc, List.append_nil] at this
                exact this
          have hstep : step ose am st r =
              { results := modifyA (ensureEntry st.results r.model) r.model
                  (fun x => ⟨x.datasets ++ [d0],
                    x.values ++ [pyJoin " / " (combinedList ose am mk r.total)]⟩),
                existing_models := insertNew st.existing_models r.model,
                unknown_datasets := st.unknown_datasets,
                unknown_metrics :=
                  if am = false ∧ alookup mk r.total = none
                  then insertNew st.unknown_metrics (d0 ++ ": " ++ mk)
                  else st.unknown_metrics,
                conflicts := st.conflicts } := by
            simp only [step, hd, hlk]
            rw [if_neg hsp, halk]
            simp only [Option.getD_some]
            rw [if_neg hdmem]
          rw [hstep]
          exact ⟨hc1_mod, hres, hc3, hc4, hc5, hc6⟩

/-! ## Lemmas about the summary aggregator -/

theorem optAppend_assoc (a b c : Option (List ℚ)) :
    optAppend (optAppend a b) c = optAppend a (optAppend b c) := by
  cases a <;> cases b <;> cases c <;> simp [optAppend]

theorem optAppend_some_nil_right (a : Option (List ℚ)) :
    optAppend a (some []) = a := by
  cases a <;> simp [optAppend]

theorem basesOfRows_concat (xs : List (String × String)) (row : String × String) :
    basesOfRows (xs ++ [row]) =
      optAppend (basesOfRows xs) (parseAll parseBase (scoreParts row.2)) := by
  induction xs with
  | nil =>
    simp only [List.nil_append, basesOfRows]
    rw [optAppend_some_nil_right]
    cases parseAll parseBase (scoreParts row.2) <;> simp [optAppend, basesOfRows]
  | cons x t ih =>
    have hc : (x :: t) ++ [row] = x :: (t ++ [row]) := rfl
    rw [hc]
    show optAppend (parseAll parseBase (scoreParts x.2)) (basesOfRows (t ++ [row])) = _
    rw [ih, ← optAppend_assoc]
    rfl

theorem modelLoop_concat (rows : List (String × String)) (row : String × String) :
    modelLoop (rows ++ [row]) = loopStep (modelLoop rows) row := by
  simp [modelLoop, List.foldl_append]

theorem foldl_loopStep_none (rows : List (String × String)) :
    rows.foldl loopStep none = none := by
  induction rows with
  | nil => rfl
  | cons row t ih => simpa [loopStep] using ih

theorem modelLoop_fail {row : String × String} {rows : List (String × String)}
    (hmem : row ∈ rows) (hfail : parseAll parseBase (scoreParts row.2) = none) :
    modelLoop rows = none := by
  unfold modelLoop
  suffices h : ∀ acc : Option (List ℚ × List ℚ × List String),
      ∀ rows2 : List (String × String), row ∈ rows2 →
      rows2.foldl loopStep acc = none by
    exact h _ rows hmem
  intro acc rows2 hmem2
  induction rows2 generalizing acc with
  | nil => exact absurd hmem2 (List.not_mem_nil row)
  | cons x t ih =>
    rcases List.mem_cons.mp hmem2 with rfl | hmem3
    · have hstep : loopStep acc row = none := by
        cases acc with
        | none => rfl
        | some trip =>
          obtain ⟨l1, l2, p⟩ := trip
          simp [loopStep, hfail]
      rw [List.foldl_cons, hstep]
      exact foldl_loopStep_none t
    · rw [List.foldl_cons]
      exact ih _ hmem3

/-- What the per-model loop computes: the two category score lists are the
concatenated parses of the rows each branch selects, and the loop-carried
`score_parts` is the split of the last row's value. -/
theorem modelLoop_char :
    ∀ (rows : List (String × String)) (ling lg : List ℚ) (parts : List String),
      modelLoop rows = some (ling, lg, parts) →
      basesOfRows (lingRows rows) = some ling ∧
      basesOfRows (logRows rows) = some lg ∧
      (rows = [] → parts = []) ∧
      (∀ lr, rows.getLast? = some lr → parts = scoreParts lr.2) := by
  intro rows
  induction rows using List.reverseRecOn with
  | nil =>
    intro ling lg parts h
    obtain ⟨rfl, rfl, rfl⟩ : ([] : List ℚ) = ling ∧ ([] : List ℚ) = lg ∧
        ([] : List String) = parts := by
      have := Option.some_inj.mp h
      exact ⟨congrArg (fun t => t.1) this,
        congrArg (fun t => t.2.1) this, congrArg (fun t => t.2.2) this⟩
    exact ⟨rfl, rfl, fun _ => rfl, fun lr hlr => Option.noConfusion hlr⟩
  | append_singleton xs row ih =>
    intro ling lg parts h
    rw [modelLoop_concat] at h
    cases hprev : modelLoop xs with
    | none =>
      rw [hprev] at h
      exact Option.noConfusion h
    | some trip =>
      obtain ⟨l1, l2, p⟩ := trip
      rw [hprev] at h
      obtain ⟨h1, h2, h3, h4⟩ := ih l1 l2 p hprev
      cases hparse : parseAll parseBase (scoreParts row.2) with
      | none =>
        simp [loopStep, hparse] at h
      | some vs =>
        have hlast : (xs ++ [row]).getLast? = some row := by
          simp
        cases hc1 : linguistic_datasets.contains row.1 with
        | true =>
          have hmemb : row.1 ∈ linguistic_datasets := by simpa using hc1
          have hling : lingRows (xs ++ [row]) = lingRows xs ++ [row] := by
            unfold lingRows
            rw [List.filter_append]
            simp [List.filter_cons, hmemb]
          have hlog : logRows (xs ++ [row]) = logRows xs := by
            unfold logRows
            rw [List.filter_append]
            simp [List.filter_cons, hmemb]
          simp only [loopStep, hparse, hc1, if_true] at h
          obtain ⟨rfl, rfl, rfl⟩ : l1 ++ vs = ling ∧ l2 = lg ∧
              scoreParts row.2 = parts := by
            have := Option.some_inj.mp h
            exact ⟨congrArg (fun t => t.1) this,
              congrArg (fun t => t.2.1) this, congrArg (fun t => t.2.2) this⟩
          refine ⟨?_, ?_, ?_, ?_⟩
          · rw [hling, basesOfRows_concat, h1, hparse]
            rfl
          · rw [hlog]
            exact h2
          · intro habs
            exact absurd habs (by simp)
          · intro lr hlr
            rw [hlast] at hlr
            rw [Option.some_inj.mp hlr]
        | false =>
          cases hc2 : logical_datasets.contains row.1 with
          | true =>
            have hmemb1 : row.1 ∉ linguistic_datasets := by simpa using hc1
            have hmemb2 : row.1 ∈ logical_datasets := by simpa using hc2
            have hling : lingRows (xs ++ [row]) = lingRows xs := by
              unfold lingRows
              rw [List.filter_append]
              simp [List.filter_cons, hmemb1]
            have hlog : logRows (xs ++ [row]) = logRows xs ++ [row] := by
              unfold logRows
              rw [List.filter_append]
              simp [List.filter_cons, hmemb1, hmemb2]
            simp only [loopStep, hparse, hc1, hc2, Bool.false_eq_true, if_false,
              if_true] at h
            obtain ⟨rfl, rfl, rfl⟩ : l1 = ling ∧ l2 ++ vs = lg ∧
                scoreParts row.2 = parts := by
              have := Option.some_inj.mp h
              exact ⟨congrArg (fun t => t.1) this,
                congrArg (fun t => t.2.1) this, congrArg (fun t => t.2.2) this⟩
            refine ⟨?_, ?_, ?_, ?_⟩
            · rw [hling]
              exact h1
            · rw [hlog, basesOfRows_concat, h2, hparse]
              rfl
            · intro habs
              exact absurd habs (by simp)
            · intro lr hlr
              rw [hlast] at hlr
              rw [Option.some_inj.mp hlr]
          | false =>
            have hmemb1 : row.1 ∉ linguistic_datasets := by simpa using hc1
            have hmemb2 : row.1 ∉ logical_datasets := by simpa using hc2
            have hling : lingRows (xs ++ [row]) = lingRows xs := by
              unfold lingRows
              rw [List.filter_append]
              simp [List.filter_cons, hmemb1]
            have hlog : logRows (xs ++ [row]) = logRows xs := by
              unfold logRows
              rw [List.filter_append]
              simp [List.filter_cons, hmemb1, hmemb2]
            simp only [loopStep, hparse, hc1, hc2, Bool.false_eq_true, if_false] at h
            obtain ⟨rfl, rfl, rfl⟩ : l1 = ling ∧ l2 = lg ∧
                scoreParts row.2 = parts := by
              have := Option.some_inj.mp h
              exact ⟨congrArg (fun t => t.1) this,
                congrArg (fun t => t.2.1) this, congrArg (fun t => t.2.2) this⟩
            refine ⟨?_, ?_, ?_, ?_⟩
            · rw [hling]
              exact h1
            · rw [hlog]
              exact h2
            · intro habs
              exact absurd habs (by simp)
            · intro lr hlr
              rw [hlast] at hlr
              rw [Option.some_inj.mp hlr]

theorem alookup_eq_none_of_not_mem_keys {α β : Type} [DecidableEq α] {m : α}
    {xs : List (α × β)} (h : m ∉ xs.map Prod.fst) : alookup m xs = none := by
  induction xs with
  | nil => rfl
  | cons p t ih =>
    have h1 : ¬(p.1 = m) := by
      intro hh
      exact h (by simp [hh])
    have h2 : m ∉ t.map Prod.fst := by
      intro hh
      exact h (by simp [hh])
    simp [alookup, h1, ih h2]

theorem summarizeAll_keys (ose : Bool) :
    ∀ (results : List (Option String × ModelData))
      (l : List (Option String × List (String × ℚ))),
      summarizeAll ose results = some l →
      l.map Prod.fst = results.map Prod.fst := by
  intro results
  induction results with
  | nil =>
    intro l h
    rw [← Option.some_inj.mp h]
    rfl
  | cons p t ih =>
    intro l h
    simp only [summarizeAll] at h
    cases he : summarizeModel ose p.2 with
    | none => rw [he] at h; exact Option.noConfusion h
    | some e =>
      cases hl : summarizeAll ose t with
      | none => rw [he, hl] at h; exact Option.noConfusion h
      | some l2 =>
        rw [he, hl] at h
        rw [← Option.some_inj.mp h]
        simp [ih l2 hl]

/-- Looking a model up in the summary: its entries come from `summarizeModel`
on its `ModelData`, and the model is dropped when both score lists were
empty. -/
theorem calc_lookup {ose : Bool} {results : List (Option String × ModelData)}
    {s : List (Option String × List (String × ℚ))} {m : Option String}
    {md : ModelData}
    (hnd : (results.map Prod.fst).Nodup)
    (hs : calculate_summary results ose = some s)
    (hm : alookup m results = some md) :
    ∃ e, summarizeModel ose md = some e ∧
      alookup m s = (if e.isEmpty then none else some e) := by
  induction results generalizing s with
  | nil => exact Option.noConfusion hm
  | cons p t ih =>
    unfold calculate_summary at hs
    simp only [summarizeAll] at hs
    cases he : summarizeModel ose p.2 with
    | none => rw [he] at hs; exact Option.noConfusion hs
    | some e =>
      cases hl : summarizeAll ose t with
      | none => rw [he, hl] at hs; exact Option.noConfusion hs
      | some l2 =>
        rw [he, hl] at hs
        simp only [Option.map_some'] at hs
        have hsval := Option.some_inj.mp hs
        by_cases hpm : p.1 = m
        · have hmd : md = p.2 := by
            rw [show alookup m (p :: t) = some p.2 from by
              simp [alookup, hpm]] at hm
            exact (Option.some_inj.mp hm).symm
          refine ⟨e, by rw [hmd]; exact he, ?_⟩
          rw [← hsval]
          cases hee : e.isEmpty with
          | true =>
            have hef : e = [] := by
              cases e
              · rfl
              · simp [List.isEmpty] at hee
            simp only [List.filter_cons, hef, List.isEmpty_nil, Bool.not_true]
            have hnk : m ∉ (List.filter (fun q => !q.2.isEmpty) l2).map Prod.fst := by
              intro hmem
              obtain ⟨q, hq, hqe⟩ := List.mem_map.mp hmem
              have hq2 : q ∈ l2 := (List.mem_filter.mp hq).1
              have hmem2 : m ∈ l2.map Prod.fst := List.mem_map.mpr ⟨q, hq2, hqe⟩
              rw [summarizeAll_keys ose t l2 hl] at hmem2
              rw [← hpm] at hmem2
              exact (List.nodup_cons.mp hnd).1 hmem2
            simp [alookup_eq_none_of_not_mem_keys hnk]
          | false =>
            simp only [List.filter_cons, hee, Bool.not_false, if_pos trivial]
            simp [alookup, hpm]
        · have hmt : alookup m t = some md := by
            rw [show alookup m (p :: t) = alookup m t from by
              simp [alookup, hpm]] at hm
            exact hm
          have hcs : calculate_summary t ose =
              some (l2.filter (fun q => !q.2.isEmpty)) := by
            unfold calculate_summary
            rw [hl]
            rfl
          obtain ⟨e2, he2, hlook⟩ := ih (List.nodup_cons.mp hnd).2 hcs hmt
          refine ⟨e2, he2, ?_⟩
          rw [← hsval]
          simp only [List.filter_cons]
          cases hee : e.isEmpty with
          | true =>
            simp only [Bool.not_true]
            rw [if_neg (by simp)]
            exact hlook
          | false =>
            simp only [Bool.not_false]
            rw [if_pos (by simp)]
            rw [show alookup m ((p.1, e) :: l2.filter (fun q => !q.2.isEmpty)) =
              alookup m (l2.filter (fun q => !q.2.isEmpty)) from by
                simp [alookup, hpm]]
            exact hlook

theorem extract_char (ose am : Bool) (records : List Record) :
    CharP ose am records (extract_all_results ose am records) := by
  induction records using List.reverseRecOn with
  | nil =>
    refine ⟨?_, ?_, ?_, ?_, rfl, rfl⟩
    · intro m
      simp [extract_all_results, alookup]
    · intro m md hmd
      simp [extract_all_results, alookup] at hmd
    · intro m d
      simp [extract_all_results, conflictVals, alookup, procValues]
    · simp [extract_all_results, procValues]
  | append_singleton rs r ih =>
    rw [extract_concat]
    exact charP_step ose am rs r _ ih

/-! ## Further helper lemmas for the claims -/

theorem tail_eq_nil_iff_length_le_one {α : Type} (xs : List α) :
    xs.tail = [] ↔ xs.length ≤ 1 := by
  cases xs with
  | nil => simp
  | cons x t => cases t <;> simp

theorem const_nodup_length_le_one {α : Type} {xs : List α} {a : α}
    (hnd : xs.Nodup) (hconst : ∀ x ∈ xs, x = a) : xs.length ≤ 1 := by
  cases xs with
  | nil => simp
  | cons x t =>
    cases t with
    | nil => simp
    | cons y t2 =>
      exfalso
      have hx : x = a := hconst x (by simp)
      have hy : y = a := hconst y (by simp)
      have : x ≠ y := by
        have := List.nodup_cons.mp hnd
        intro hh
        exact this.1 (hh ▸ List.mem_cons_self y t2)
      exact this (hx.trans hy.symm)

theorem count_procDatasets (m : Option String) (d : String) (records : List Record) :
    (procDatasets m records).count d = (records.filter (isProc m d)).length := by
  induction records using List.reverseRecOn with
  | nil => rfl
  | append_singleton rs r ih =>
    rw [procDatasets_concat, List.count_append, List.filter_append,
      List.length_append, ih]
    congr 1
    cases hp : isProc m d r with
    | true =>
      have : datasetIfProc m r = some d := datasetIfProc_eq_some.mpr hp
      simp [this, hp]
    | false =>
      cases hdd : datasetIfProc m r with
      | none => simp [hp]
      | some d1 =>
        have hp1 := datasetIfProc_eq_some.mp hdd
        have hne : d1 ≠ d := by
          intro hh
          rw [hh] at hp1
          rw [hp1] at hp
          exact Bool.noConfusion hp
        have hcz : List.count d [d1] = 0 := by
          rw [List.count_eq_zero]
          simp only [List.mem_singleton]
          exact fun hh => hne hh.symm
        simp [hp, hcz]

theorem mem_zip_of_mem_right {α β : Type} :
    ∀ {l1 : List α} {l2 : List β}, l1.length = l2.length → ∀ {b : β}, b ∈ l2 →
      ∃ a, (a, b) ∈ l1.zip l2 := by
  intro l1 l2
  induction l2 generalizing l1 with
  | nil =>
    intro _ b hb
    exact absurd hb (List.not_mem_nil b)
  | cons y t ih =>
    intro hlen b hb
    cases l1 with
    | nil => exact absurd hlen (by simp)
    | cons x t1 =>
      rcases List.mem_cons.mp hb with rfl | hbt
      · exact ⟨x, by simp⟩
      · obtain ⟨a, ha⟩ := ih (by simpa using hlen) hbt
        exact ⟨a, by simp [ha]⟩

theorem alookup_some_mem {α β : Type} [DecidableEq α] {m : α} {xs : List (α × β)}
    {v : β} (h : alookup m xs = some v) : (m, v) ∈ xs := by
  induction xs with
  | nil => exact Option.noConfusion h
  | cons p t ih =>
    by_cases hp : p.1 = m
    · rw [show alookup m (p :: t) = some p.2 from by simp [alookup, hp]] at h
      have hpv : p = (m, v) := by
        obtain ⟨a, b⟩ := p
        simp only at hp h
        rw [hp, Option.some_inj.mp h]
      exact List.mem_cons.mpr (Or.inl hpv.symm)
    · rw [show alookup m (p :: t) = alookup m t from by simp [alookup, hp]] at h
      exact List.mem_cons.mpr (Or.inr (ih h))

theorem summarizeAll_none_of_mem {ose : Bool} {m : Option String} {md : ModelData} :
    ∀ {results : List (Option String × ModelData)}, (m, md) ∈ results →
      summarizeModel ose md = none → summarizeAll ose results = none := by
  intro results
  induction results with
  | nil =>
    intro hmem
    exact absurd hmem (List.not_mem_nil _)
  | cons p t ih =>
    intro hmem hnone
    rcases List.mem_cons.mp hmem with rfl | hmem2
    · simp only [summarizeAll, hnone]
    · simp only [summarizeAll, ih hmem2 hnone]
      cases summarizeModel ose p.2 <;> rfl

theorem joinUnknown_some {xs : List (Option String)} (h : Option.none ∉ xs) :
    ∃ j, joinUnknown xs = some j := by
  induction xs with
  | nil => exact ⟨"", rfl⟩
  | cons x t ih =>
    cases x with
    | none => exact absurd (List.mem_cons_self _ _) h
    | some s =>
      obtain ⟨j, hj⟩ := ih (fun hh => h (List.mem_cons.mpr (Or.inr hh)))
      exact ⟨if t.isEmpty then s else s ++ ", " ++ j, by simp [joinUnknown, hj]⟩

theorem warnLines_some {st : ExtractState} (h : Option.none ∉ st.unknown_datasets) :
    ∃ warns, warnLines st = some warns ∧
      (st.unknown_datasets ≠ [] → ∃ j, joinUnknown st.unknown_datasets = some j ∧
        (Channel.stdout, "Error: Unknown datasets found in the file: " ++ j) ∈ warns) := by
  by_cases he : st.unknown_datasets.isEmpty
  · refine ⟨(if st.unknown_metrics.isEmpty then []
      else [(Channel.stdout, "Warning: Missing metrics for some datasets: " ++
        pyJoin ", " st.unknown_metrics)]), ?_, ?_⟩
    · simp [warnLines, he]
    · intro hne
      exact absurd (List.isEmpty_iff.mp he) hne
  · obtain ⟨j, hj⟩ := joinUnknown_some h
    refine ⟨[(Channel.stdout, "Error: Unknown datasets found in the file: " ++ j)] ++
      (if st.unknown_metrics.isEmpty then []
        else [(Channel.stdout, "Warning: Missing metrics for some datasets: " ++
          pyJoin ", " st.unknown_metrics)]), ?_, ?_⟩
    · simp [warnLines, he, hj]
    · intro _
      exact ⟨j, hj, by simp⟩

theorem conflictReport_stdout (c : List (Option String × List (String × List String))) :
    ∀ l ∈ conflictReport c, l.1 = Channel.stdout := by
  intro l hl
  unfold conflictReport at hl
  rcases List.mem_cons.mp hl with rfl | hl2
  · rfl
  · obtain ⟨sub, hsub, hlsub⟩ := List.mem_flatten.mp hl2
    obtain ⟨p, _, rfl⟩ := List.mem_map.mp hsub
    obtain ⟨q, _, rfl⟩ := List.mem_map.mp hlsub
    rfl

theorem conflictLine_mem_report {c : List (Option String × List (String × List String))}
    {p : Option String × List (String × List String)} {q : String × List String}
    (hp : p ∈ c) (hq : q ∈ p.2) :
    (Channel.stdout, conflictLine p.1 q.1 q.2) ∈ conflictReport c := by
  unfold conflictReport
  refine List.mem_cons.mpr (Or.inr (List.mem_flatten.mpr
    ⟨p.2.map (fun q2 => (Channel.stdout, conflictLine p.1 q2.1 q2.2)), ?_, ?_⟩))
  · exact List.mem_map.mpr ⟨p, hp, rfl⟩
  · exact List.mem_map.mpr ⟨q, hq, rfl⟩

/-- The possible shapes of one category's summary entries. -/
theorem categoryEntries_char {ose : Bool} {label : String} {scores : List ℚ}
    {parts : List String} {e : List (String × ℚ)}
    (h : categoryEntries ose label scores parts = some e) :
    (scores = [] ∧ e = []) ∨
    (scores ≠ [] ∧
      ((ose = true ∧ ∃ se, seValue parts = some se ∧
          e = [(label ++ " Average", round2 (scores.sum / (scores.length : ℚ))),
               (label ++ " SE", se)]) ∨
        (ose = false ∧
          e = [(label ++ " Average", round2 (scores.sum / (scores.length : ℚ)))]))) := by
  unfold categoryEntries at h
  by_cases hsc : scores.isEmpty
  · left
    rw [if_pos hsc] at h
    exact ⟨List.isEmpty_iff.mp hsc, (Option.some_inj.mp h).symm⟩
  · right
    rw [if_neg hsc] at h
    refine ⟨by simpa using hsc, ?_⟩
    cases ose with
    | true =>
      left
      refine ⟨rfl, ?_⟩
      simp only [if_true] at h
      cases hse : seValue parts with
      | none => rw [hse] at h; exact Option.noConfusion h
      | some se =>
        rw [hse] at h
        exact ⟨se, rfl, (Option.some_inj.mp h).symm⟩
    | false =>
      right
      simp only [Bool.false_eq_true, if_false] at h
      exact ⟨rfl, (Option.some_inj.mp h).symm⟩

theorem categoryEntries_labels {ose : Bool} {label : String} {scores : List ℚ}
    {parts : List String} {e : List (String × ℚ)}
    (h : categoryEntries ose label scores parts = some e) :
    ∀ k w, (k, w) ∈ e → k = label ++ " Average" ∨ k = label ++ " SE" := by
  intro k w hkw
  rcases categoryEntries_char h with ⟨_, rfl⟩ | ⟨_, ⟨_, se, _, rfl⟩ | ⟨_, rfl⟩⟩
  · exact absurd hkw (List.not_mem_nil _)
  · rcases List.mem_cons.mp hkw with heq | hkw2
    · exact Or.inl (congrArg Prod.fst heq)
    · rcases List.mem_cons.mp hkw2 with heq | hkw3
      · exact Or.inr (congrArg Prod.fst heq)
      · exact absurd hkw3 (List.not_mem_nil _)
  · rcases List.mem_cons.mp hkw with heq | hkw2
    · exact Or.inl (congrArg Prod.fst heq)
    · exact absurd hkw2 (List.not_mem_nil _)

/-! ## Claim theorems -/

/-- C1: for every input and every model, each dataset appears at most once in
the model's final result list (`datasets` is duplicate-free); the recorded
value of a dataset is the formatted value of its *first* processed occurrence
(later occurrences never overwrite it), and the conflict log for `(m, d)`
holds exactly the formatted values of all occurrences after the first — with
no value comparison anywhere, so an identical repeated value is a conflict
too, not deduplicated. -/
theorem C1_duplicate_is_conflict_not_overwrite (ose am : Bool)
    (records : List Record) (m : Option String) (d : String) :
    (∀ md : ModelData,
        alookup m (extract_all_results ose am records).results = some md →
        md.datasets.Nodup ∧
        alookup d (md.datasets.zip md.values) =
          (procValues ose am m d records).head?) ∧
    conflictVals (extract_all_results ose am records).conflicts m d =
      (procValues ose am m d records).tail := by
  obtain ⟨_, h2, h3, _, _, _⟩ := extract_char ose am records
  refine ⟨?_, h3 m d⟩
  intro md hmd
  obtain ⟨hd1, _, hd3⟩ := h2 m md hmd
  exact ⟨hd1 ▸ nodup_dedupKeepFirst _, hd3 d⟩

unseal Rat.mul Rat.inv Rat.add Rat.sub in
/-- C1 witness: two identical lines for (A, norec): the first value "0.8" is
kept and the identical repeat is logged as a conflict. -/
theorem C1_duplicate_is_conflict_not_overwrite_witness :
    (⟨["norec"], ["0.8"]⟩ : ModelData).datasets.Nodup ∧
    alookup "norec" ((⟨["norec"], ["0.8"]⟩ : ModelData).datasets.zip
      (⟨["norec"], ["0.8"]⟩ : ModelData).values) =
      (procValues false false (some "A") "norec"
        [⟨some "A", some "norec", [("test_macro_f1", 4/5)]⟩,
         ⟨some "A", some "norec", [("test_macro_f1", 4/5)]⟩]).head? ∧
    conflictVals (extract_all_results false false
        [⟨some "A", some "norec", [("test_macro_f1", 4/5)]⟩,
         ⟨some "A", some "norec", [("test_macro_f1", 4/5)]⟩]).conflicts
      (some "A") "norec" = ["0.8"] := by
  have h := C1_duplicate_is_conflict_not_overwrite false false
    [⟨some "A", some "norec", [("test_macro_f1", 4/5)]⟩,
     ⟨some "A", some "norec", [("test_macro_f1", 4/5)]⟩] (some "A") "norec"
  have hmd := h.1 ⟨["norec"], ["0.8"]⟩ (by decide)
  refine ⟨hmd.1, hmd.2, ?_⟩
  rw [h.2]
  decide

/-- C6 counterexample: a single `speed` line.  The pair (A, speed) occurs on
exactly one line (so no pair repeats), yet extraction produces an entry for
model A with an *empty* dataset/value list — not "exactly one entry per
(model, dataset) pair seen". -/
theorem C6_cex_speed_pair_no_entry :
    (⟨some "A", some "speed", []⟩ : Record).dataset = some "speed" ∧
    alookup (some "A") (extract_all_results false false
      [⟨some "A", some "speed", []⟩]).results = some ⟨[], []⟩ := by
  exact ⟨rfl, by decide⟩

/-- C6 (amended): if no (model, dataset) pair occurs on more than one line,
extraction detects no conflict and produces exactly one entry per processed
(model, dataset) pair seen — a pair whose dataset is a schema key other than
`speed` — in first-occurrence order, each holding the value of its line;
unknown-dataset and `speed` pairs produce no entry. -/
theorem C6_unique_pairs_first_seen (ose am : Bool) (records : List Record)
    (h : (records.map (fun r => (r.model, r.dataset))).Nodup) :
    (extract_all_results ose am records).conflicts = [] ∧
    ∀ m md, alookup m (extract_all_results ose am records).results = some md →
      md.datasets = procDatasets m records ∧ md.datasets.Nodup ∧
      (∀ d, alookup d (md.datasets.zip md.values) =
        (procValues ose am m d records).head?) := by
  have hfilter : ∀ (m : Option String) (d : String),
      (records.filter (isProc m d)).length ≤ 1 := by
    intro m d
    have hsub : (records.filter (isProc m d)).Sublist records :=
      List.filter_sublist records
    have hmap : ((records.filter (isProc m d)).map
        (fun r => (r.model, r.dataset))).Sublist
        (records.map (fun r => (r.model, r.dataset))) :=
      List.Sublist.map _ hsub
    have hnd2 : ((records.filter (isProc m d)).map
        (fun r => (r.model, r.dataset))).Nodup := h.sublist hmap
    have hconst : ∀ x ∈ (records.filter (isProc m d)).map
        (fun r => (r.model, r.dataset)), x = (m, some d) := by
      intro x hx
      obtain ⟨r, hr, rfl⟩ := List.mem_map.mp hx
      obtain ⟨h1, h2, _, _⟩ := isProc_iff.mp (List.mem_filter.mp hr).2
      rw [h1, h2]
    have := const_nodup_length_le_one hnd2 hconst
    simpa using this
  obtain ⟨_, h2, _, h4, _, _⟩ := extract_char ose am records
  constructor
  · apply h4.mpr
    intro m d
    rw [tail_eq_nil_iff_length_le_one]
    have : (procValues ose am m d records).length =
        (records.filter (isProc m d)).length := by
      simp [procValues]
    rw [this]
    exact hfilter m d
  · intro m md hmd
    obtain ⟨hd1, _, hd3⟩ := h2 m md hmd
    have hpdnd : (procDatasets m records).Nodup := by
      rw [List.nodup_iff_count_le_one]
      intro d
      rw [count_procDatasets]
      exact hfilter m d
    exact ⟨hd1.trans (dedupKeepFirst_of_nodup hpdnd), hd1 ▸ nodup_dedupKeepFirst _,
      hd3⟩

unseal Rat.mul Rat.inv Rat.add Rat.sub in
/-- C6 witness: two distinct pairs for one model come out as exactly one
entry each, in first-seen order, with no conflict. -/
theorem C6_unique_pairs_first_seen_witness :
    (extract_all_results false false
      [⟨some "A", some "norec", [("test_macro_f1", 4/5)]⟩,
       ⟨some "A", some "norquad", [("test_f1", 1/2)]⟩]).conflicts = [] ∧
    (⟨["norec", "norquad"], ["0.8", "0.5"]⟩ : ModelData).datasets =
      procDatasets (some "A")
        [⟨some "A", some "norec", [("test_macro_f1", 4/5)]⟩,
         ⟨some "A", some "norquad", [("test_f1", 1/2)]⟩] := by
  have h := C6_unique_pairs_first_seen false false
    [⟨some "A", some "norec", [("test_macro_f1", 4/5)]⟩,
     ⟨some "A", some "norquad", [("test_f1", 1/2)]⟩] (by decide)
  refine ⟨h.1, ?_⟩
  exact (h.2 (some "A") ⟨["norec", "norquad"], ["0.8", "0.5"]⟩ (by decide)).1

/-- C8 counterexample: a recognized non-speed record whose primary metric is
missing from `results.total` still gets an entry — the dataset is appended
with the empty string as its value, so the value is *not* omitted for that
(model, dataset). -/
theorem C8_cex_missing_metric_records_empty_value :
    alookup (some "A") (extract_all_results false false
      [⟨some "A", some "norec", []⟩]).results = some ⟨["norec"], [""]⟩ ∧
    (extract_all_results false false
      [⟨some "A", some "norec", []⟩]).unknown_metrics = ["norec: test_macro_f1"] := by
  decide

/-- C8 (amended): in default (non-all-metrics) mode, a recognized non-speed
record whose primary metric is absent adds `"<dataset>: <metric_key>"` to
`unknown_metrics` (a set — each distinct pair reported once), its line value
is the empty string, and when such a line is the first processed occurrence
of its (model, dataset) the empty string is recorded as that pair's value
(the entry is not omitted); extraction continues past the record. -/
theorem C8_missing_metric_empty_string (ose : Bool) (records : List Record) :
    (extract_all_results ose false records).unknown_metrics.Nodup ∧
    (∀ x, x ∈ (extract_all_results ose false records).unknown_metrics ↔
      ∃ r ∈ records, missingOf false r = some x) ∧
    (∀ r ∈ records, (missingOf false r).isSome = true →
      lineValue ose false r = "") ∧
    (∀ m d, (procValues ose false m d records).head? = some "" →
      ∃ md, alookup m (extract_all_results ose false records).results = some md ∧
        alookup d (md.datasets.zip md.values) = some "") := by
  obtain ⟨h1, h2, _, _, _, h6⟩ := extract_char ose false records
  refine ⟨?_, ?_, ?_, ?_⟩
  · rw [h6]
    exact nodup_dedupKeepFirst _
  · intro x
    rw [h6, mem_dedupKeepFirst, List.mem_filterMap]
  · intro r _ hmiss
    rw [Option.isSome_iff_exists] at hmiss
    obtain ⟨x, hx⟩ := hmiss
    unfold missingOf at hx
    simp only [Bool.false_eq_true, if_false] at hx
    cases hd : r.dataset with
    | none =>
      simp only [hd] at hx
      exact Option.noConfusion hx
    | some d =>
      simp only [hd] at hx
      cases hmk : alookup d expected_datasets_metrics with
      | none =>
        simp only [hmk] at hx
        exact Option.noConfusion hx
      | some mk =>
        simp only [hmk] at hx
        by_cases hcond : d ≠ "speed" ∧ alookup mk r.total = none
        · rw [lineValue_processed hd hmk]
          unfold combinedList
          simp only [Bool.false_eq_true, if_false]
          unfold defaultList
          rw [hcond.2]
          rfl
        · rw [if_neg hcond] at hx
          exact Option.noConfusion hx
  · intro m d hhead
    have hne : procValues ose false m d records ≠ [] := by
      intro hnil
      rw [hnil] at hhead
      exact Option.noConfusion hhead
    obtain ⟨r, hr, hpr⟩ := by
      have := procValues_ne_nil_iff.mp hne
      exact mem_procDatasets.mp this
    obtain ⟨hm1, hm2, hm3, _⟩ := isProc_iff.mp hpr
    have hsome : (alookup m (extract_all_results ose false records).results).isSome
        = true :=
      (h1 m).mpr ⟨r, hr, hm1, by
        unfold hasSchemaDataset
        rw [hm2]
        exact hm3⟩
    obtain ⟨md, hmd⟩ := Option.isSome_iff_exists.mp hsome
    obtain ⟨_, _, hd3⟩ := h2 m md hmd
    exact ⟨md, hmd, by rw [hd3 d, hhead]⟩

/-- C8 witness: the missing-metric line for (A, norec) yields the entry with
the empty-string value and the deduplicated unknown-metric report. -/
theorem C8_missing_metric_empty_string_witness :
    lineValue false false (⟨some "A", some "norec", []⟩ : Record) = "" ∧
    ∃ md, alookup (some "A") (extract_all_results false false
        [⟨some "A", some "norec", []⟩]).results = some md ∧
      alookup "norec" (md.datasets.zip md.values) = some "" := by
  have h := C8_missing_metric_empty_string false [⟨some "A", some "norec", []⟩]
  exact ⟨h.2.2.1 ⟨some "A", some "norec", []⟩ (by decide) (by decide),
    h.2.2.2 (some "A") "norec" (by decide)⟩

/-- C10: extraction really can record the empty string as a formatted value —
in default mode when the primary metric is absent, and in all-metrics mode
when `results.total` has no `_se`-keyed pair — and whenever any model's
result list pairs a dataset with the empty string, `calculate_summary`
fails (`float("")` raises `ValueError`) instead of returning a summary. -/
theorem C10_empty_value_breaks_summary :
    (alookup (some "A") (extract_all_results false false
        [⟨some "A", some "norec", []⟩]).results = some ⟨["norec"], [""]⟩) ∧
    (alookup (some "A") (extract_all_results true true
        [⟨some "A", some "norec", [("test_macro_f1", 1/2)]⟩]).results =
      some ⟨["norec"], [""]⟩) ∧
    ∀ (ose : Bool) (results : List (Option String × ModelData))
      (m : Option String) (md : ModelData),
      alookup m results = some md → md.datasets.length = md.values.length →
      "" ∈ md.values → calculate_summary results ose = none := by
  refine ⟨by decide, by decide, ?_⟩
  intro ose results m md hm hlen hval
  obtain ⟨a, hrow⟩ := mem_zip_of_mem_right hlen hval
  have hfail : parseAll parseBase (scoreParts ("" : String)) = none := by decide
  have hloop : modelLoop (md.datasets.zip md.values) = none :=
    modelLoop_fail hrow hfail
  have hmodel : summarizeModel ose md = none := by
    unfold summarizeModel
    rw [hloop]
  have hall : summarizeAll ose results = none :=
    summarizeAll_none_of_mem (alookup_some_mem hm) hmodel
  unfold calculate_summary
  rw [hall]
  rfl

/-- C10 witness: the summary of a result list holding the empty string fails. -/
theorem C10_empty_value_breaks_summary_witness :
    calculate_summary [(some "A", ⟨["norec"], [""]⟩)] false = none :=
  C10_empty_value_breaks_summary.2.2 false [(some "A", ⟨["norec"], [""]⟩)]
    (some "A") ⟨["norec"], [""]⟩ (by decide) (by decide) (by decide)

theorem runMain_conflict (markdown ose am ns os : Bool) (records : List Record)
    (h : (extract_all_results ose am records).conflicts ≠ []) :
    runMain markdown ose am ns os records =
      ⟨conflictReport (extract_all_results ose am records).conflicts, 1⟩ := by
  simp only [runMain]
  rw [if_neg h]

unseal Rat.mul Rat.inv Rat.add Rat.sub in
/-- C2 counterexample: on a conflicting input the program does exit 1 and
does print a report, but every printed line is on standard output — nothing
goes to the error stream. -/
theorem C2_cex_report_not_on_stderr :
    (runMain false false false false false
      [⟨some "A", some "norec", [("test_macro_f1", 4/5)]⟩,
       ⟨some "A", some "norec", [("test_macro_f1", 9/10)]⟩]).exitCode = 1 ∧
    (runMain false false false false false
      [⟨some "A", some "norec", [("test_macro_f1", 4/5)]⟩,
       ⟨some "A", some "norec", [("test_macro_f1", 9/10)]⟩]).output ≠ [] ∧
    ∀ l ∈ (runMain false false false false false
      [⟨some "A", some "norec", [("test_macro_f1", 4/5)]⟩,
       ⟨some "A", some "norec", [("test_macro_f1", 9/10)]⟩]).output,
      l.1 ≠ Channel.stderr := by
  decide

/-- C2 (amended): when extraction detects at least one (model, dataset)
conflict, the full pass is completed first (the conflict log holds the values
of *all* later occurrences of every duplicated pair, not just the first
conflict), the process exits with status 1, the whole output is exactly the
conflict report — printed to standard output, not the error stream — naming
model, dataset and the logged conflicting values, and no dataset table or
summary line is printed. -/
theorem C2_conflict_abort_stdout (markdown ose am ns os : Bool)
    (records : List Record)
    (h : (extract_all_results ose am records).conflicts ≠ []) :
    (runMain markdown ose am ns os records).exitCode = 1 ∧
    (runMain markdown ose am ns os records).output =
      conflictReport (extract_all_results ose am records).conflicts ∧
    (∀ l ∈ (runMain markdown ose am ns os records).output, l.1 = Channel.stdout) ∧
    (∀ p ∈ (extract_all_results ose am records).conflicts, ∀ q ∈ p.2,
      (Channel.stdout, conflictLine p.1 q.1 q.2) ∈
        (runMain markdown ose am ns os records).output) ∧
    (∀ (m : Option String) (d : String),
      conflictVals (extract_all_results ose am records).conflicts m d =
        (procValues ose am m d records).tail) := by
  have hrm := runMain_conflict markdown ose am ns os records h
  obtain ⟨_, _, h3, _, _, _⟩ := extract_char ose am records
  refine ⟨by rw [hrm], by rw [hrm], ?_, ?_, h3⟩
  · intro l hl
    rw [hrm] at hl
    exact conflictReport_stdout _ l hl
  · intro p hp q hq
    rw [hrm]
    exact conflictLine_mem_report hp hq

unseal Rat.mul Rat.inv Rat.add Rat.sub in
/-- C2 witness: a concrete conflicting input exits 1. -/
theorem C2_conflict_abort_stdout_witness :
    (extract_all_results false false
      [⟨some "A", some "norec", [("test_macro_f1", 4/5)]⟩,
       ⟨some "A", some "norec", [("test_macro_f1", 9/10)]⟩]).conflicts ≠ [] ∧
    (runMain false false false false false
      [⟨some "A", some "norec", [("test_macro_f1", 4/5)]⟩,
       ⟨some "A", some "norec", [("test_macro_f1", 9/10)]⟩]).exitCode = 1 := by
  have h := C2_conflict_abort_stdout false false false false false
    [⟨some "A", some "norec", [("test_macro_f1", 4/5)]⟩,
     ⟨some "A", some "norec", [("test_macro_f1", 9/10)]⟩] (by decide)
  exact ⟨by decide, h.1⟩

theorem runMain_no_summary (markdown ose am : Bool) (records : List Record)
    (warns : List (Channel × String))
    (hconf : (extract_all_results ose am records).conflicts = [])
    (hw : warnLines (extract_all_results ose am records) = some warns) :
    runMain markdown ose am true false records =
      ⟨warns ++ tableLines markdown (extract_all_results ose am records).results,
        0⟩ := by
  simp only [runMain]
  rw [if_pos hconf, hw]
  simp

unseal Rat.mul Rat.inv Rat.add Rat.sub in
/-- C7 counterexample: a file with a conflict *and* an unknown dataset
`foo`.  The run aborts on the conflict before the diagnostics are printed:
`foo` was collected into the unknown-dataset set, yet no line of the output
reports it — so "each distinct unknown dataset name is reported exactly once
across the whole file" fails as stated. -/
theorem C7_cex_unknown_report_suppressed_by_conflict :
    (extract_all_results false false
      [⟨some "A", some "norec", [("test_macro_f1", 4/5)]⟩,
       ⟨some "A", some "norec", [("test_macro_f1", 9/10)]⟩,
       ⟨some "B", some "foo", []⟩]).unknown_datasets = [some "foo"] ∧
    (∀ l ∈ (runMain false false false false false
      [⟨some "A", some "norec", [("test_macro_f1", 4/5)]⟩,
       ⟨some "A", some "norec", [("test_macro_f1", 9/10)]⟩,
       ⟨some "B", some "foo", []⟩]).output,
      l.2 ≠ "Error: Unknown datasets found in the file: foo") ∧
    (runMain false false false false false
      [⟨some "A", some "norec", [("test_macro_f1", 4/5)]⟩,
       ⟨some "A", some "norec", [("test_macro_f1", 9/10)]⟩,
       ⟨some "B", some "foo", []⟩]).exitCode = 1 := by
  decide

/-- C7 (amended): a dataset that is not a schema key never appears in any
model's result list; the unknown-dataset set is deduplicated and holds
exactly the distinct unknown names of the file (so each would be reported
once); and provided no conflict aborted the run and no record lacked its
dataset field, the run continues non-fatally: with tables-only flags it
exits 0 and prints the single unknown-dataset report line. -/
theorem C7_unknown_dataset_skipped_and_reported (markdown ose am : Bool)
    (records : List Record) :
    (∀ m md, alookup m (extract_all_results ose am records).results = some md →
      ∀ d ∈ md.datasets, (alookup d expected_datasets_metrics).isSome = true) ∧
    (extract_all_results ose am records).unknown_datasets.Nodup ∧
    (∀ x, x ∈ (extract_all_results ose am records).unknown_datasets ↔
      ∃ r ∈ records, unknownOf r = some x) ∧
    ((extract_all_results ose am records).conflicts = [] →
      Option.none ∉ (extract_all_results ose am records).unknown_datasets →
      (runMain markdown ose am true false records).exitCode = 0 ∧
      ((extract_all_results ose am records).unknown_datasets ≠ [] →
        ∃ j, joinUnknown (extract_all_results ose am records).unknown_datasets =
            some j ∧
          (Channel.stdout, "Error: Unknown datasets found in the file: " ++ j) ∈
            (runMain markdown ose am true false records).output)) := by
  obtain ⟨_, h2, _, _, h5, _⟩ := extract_char ose am records
  refine ⟨?_, ?_, ?_, ?_⟩
  · intro m md hmd d hd
    obtain ⟨hd1, _, _⟩ := h2 m md hmd
    rw [hd1, mem_dedupKeepFirst] at hd
    obtain ⟨r, _, hpr⟩ := mem_procDatasets.mp hd
    exact (isProc_iff.mp hpr).2.2.1
  · rw [h5]
    exact nodup_dedupKeepFirst _
  · intro x
    rw [h5, mem_dedupKeepFirst, List.mem_filterMap]
  · intro hconf hnone
    obtain ⟨warns, hw, hrep⟩ := warnLines_some hnone
    have hrm := runMain_no_summary markdown ose am records warns hconf hw
    refine ⟨by rw [hrm], ?_⟩
    intro hne
    obtain ⟨j, hj, hmem⟩ := hrep hne
    refine ⟨j, hj, ?_⟩
    rw [hrm]
    exact List.mem_append_left _ hmem

unseal Rat.mul Rat.inv Rat.add Rat.sub in
/-- C7 witness: one unknown dataset `foo` in a conflict-free file: the run
exits 0 and the report line naming `foo` once is printed. -/
theorem C7_unknown_dataset_skipped_and_reported_witness :
    (runMain false false false true false
      [⟨some "A", some "norec", [("test_macro_f1", 4/5)]⟩,
       ⟨some "B", some "foo", []⟩]).exitCode = 0 ∧
    ∃ j, joinUnknown (extract_all_results false false
        [⟨some "A", some "norec", [("test_macro_f1", 4/5)]⟩,
         ⟨some "B", some "foo", []⟩]).unknown_datasets = some j ∧
      (Channel.stdout, "Error: Unknown datasets found in the file: " ++ j) ∈
        (runMain false false false true false
          [⟨some "A", some "norec", [("test_macro_f1", 4/5)]⟩,
           ⟨some "B", some "foo", []⟩]).output := by
  have h := (C7_unknown_dataset_skipped_and_reported false false false
    [⟨some "A", some "norec", [("test_macro_f1", 4/5)]⟩,
     ⟨some "B", some "foo", []⟩]).2.2.2 (by decide) (by decide)
  exact ⟨h.1, h.2 (by decide)⟩

/-- C9: a non-empty line without a `dataset` field is treated as dataset
`None` and handled as an unknown dataset — skipped, no value recorded (the
model gets no entry) — exactly as the claim says; but the run then does
*not* continue with the report printed: `', '.join` over the set containing
`None` raises `TypeError`, so the program aborts with status 1 and the
unknown-dataset report is never printed.  This theorem evaluates the code at
the failing input `{"model": "A"}`. -/
theorem C9_missing_dataset_field_typeerror :
    (extract_all_results false false
      [⟨some "A", none, []⟩]).unknown_datasets = [none] ∧
    alookup (some "A") (extract_all_results false false
      [⟨some "A", none, []⟩]).results = none ∧
    runMain false false false false false [⟨some "A", none, []⟩] =
      ⟨[(Channel.stderr, "TypeError")], 1⟩ := by
  decide

theorem seValue_some_char {parts : List String} {v : ℚ} (h : seValue parts = some v) :
    ∃ ses, parseAll parseSe (parts.filter hasSeSep) = some ses ∧
      v = round2 (ses.sum / (parts.length : ℚ)) := by
  unfold seValue at h
  by_cases hl0 : parts.length = 0
  · rw [if_pos hl0] at h
    exact Option.noConfusion h
  · rw [if_neg hl0] at h
    cases hp : parseAll parseSe (parts.filter hasSeSep) with
    | none =>
      rw [hp] at h
      exact Option.noConfusion h
    | some ses =>
      rw [hp] at h
      exact ⟨ses, rfl, (Option.some_inj.mp h).symm⟩

/-- C3: when standard-error output is requested, the per-category SE summary
of a model — "Linguistic SE" and "Logical SE" alike — equals `round2` of the
sum of the SE components parsed from the loop-carried `score_parts` divided
by the sub-value count of the *last* dataset processed in the model's
dataset loop: the divisor is that last record's total sub-value count, not
the count of SE-bearing sub-values, and the same last record feeds both
categories. -/
theorem C3_se_divisor_last_record (results : List (Option String × ModelData))
    (s : List (Option String × List (String × ℚ))) (m : Option String)
    (md : ModelData) (e : List (String × ℚ)) (v : ℚ)
    (hnd : (results.map Prod.fst).Nodup)
    (hm : alookup m results = some md)
    (hs : calculate_summary results true = some s)
    (he : alookup m s = some e)
    (hv : ("Linguistic SE", v) ∈ e ∨ ("Logical SE", v) ∈ e) :
    ∃ lastRow, (md.datasets.zip md.values).getLast? = some lastRow ∧
      ∃ ses, parseAll parseSe ((scoreParts lastRow.2).filter hasSeSep) = some ses ∧
        v = round2 (ses.sum / ((scoreParts lastRow.2).length : ℚ)) := by
  obtain ⟨e0, he0, hlook⟩ := calc_lookup hnd hs hm
  have he0e : e = e0 := by
    by_cases hie : e0.isEmpty
    · rw [hlook, if_pos hie] at he
      exact Option.noConfusion he
    · rw [hlook, if_neg hie] at he
      exact (Option.some_inj.mp he).symm
  subst he0e
  unfold summarizeModel at he0
  cases hloop : modelLoop (md.datasets.zip md.values) with
  | none =>
    simp only [hloop] at he0
    exact Option.noConfusion he0
  | some trip =>
    obtain ⟨ling, lg, parts⟩ := trip
    simp only [hloop] at he0
    cases hce1 : categoryEntries true "Linguistic" ling parts with
    | none =>
      simp only [hce1] at he0
      exact Option.noConfusion he0
    | some e1 =>
      cases hce2 : categoryEntries true "Logical" lg parts with
      | none =>
        simp only [hce1, hce2] at he0
        exact Option.noConfusion he0
      | some e2 =>
        simp only [hce1, hce2] at he0
        have he12 : e = e1 ++ e2 := (Option.some_inj.mp he0).symm
        have hrows : md.datasets.zip md.values ≠ [] := by
          intro hnil
          rw [hnil] at hloop
          have hinj := Option.some_inj.mp hloop
          have hling : ([] : List ℚ) = ling := congrArg (fun t => t.1) hinj
          have hlg : ([] : List ℚ) = lg := congrArg (fun t => t.2.1) hinj
          have he1nil : e1 = [] := by
            rcases categoryEntries_char hce1 with ⟨_, h⟩ | ⟨hne, _⟩
            · exact h
            · exact absurd hling.symm hne
          have he2nil : e2 = [] := by
            rcases categoryEntries_char hce2 with ⟨_, h⟩ | ⟨hne, _⟩
            · exact h
            · exact absurd hlg.symm hne
          rw [he12, he1nil, he2nil] at hv
          rcases hv with h | h <;> exact absurd h (List.not_mem_nil _)
        obtain ⟨lastRow, hlr⟩ := Option.isSome_iff_exists.mp
          (List.getLast?_isSome.mpr hrows)
        have hparts : parts = scoreParts lastRow.2 :=
          (modelLoop_char _ _ _ _ hloop).2.2.2 lastRow hlr
        have hsev : seValue parts = some v := by
          rw [he12] at hv
          have hnot1 : ∀ w : ℚ, ("Linguistic SE", w) ∉ e2 := by
            intro w hmem
            rcases categoryEntries_labels hce2 _ _ hmem with h | h <;>
              exact absurd h (by decide)
          have hnot2 : ∀ w : ℚ, ("Logical SE", w) ∉ e1 := by
            intro w hmem
            rcases categoryEntries_labels hce1 _ _ hmem with h | h <;>
              exact absurd h (by decide)
          have hfrom1 : ∀ (label : String) (scores : List ℚ)
              (ee : List (String × ℚ)),
              categoryEntries true label scores parts = some ee →
              (label ++ " SE", v) ∈ ee → seValue parts = some v := by
            intro label scores ee hce hmem
            rcases categoryEntries_char hce with ⟨_, rfl⟩ |
              ⟨_, ⟨_, se, hse, rfl⟩ | ⟨hff, _⟩⟩
            · exact absurd hmem (List.not_mem_nil _)
            · rcases List.mem_cons.mp hmem with heq | hmem2
              · have hfst := congrArg Prod.fst heq
                simp only at hfst
                exfalso
                have hlen := congrArg String.length hfst
                rw [String.length_append, String.length_append] at hlen
                have h3 : (" SE" : String).length = 3 := rfl
                have h8 : (" Average" : String).length = 8 := rfl
                rw [h3, h8] at hlen
                omega
              · rcases List.mem_cons.mp hmem2 with heq | hmem3
                · have hvse : v = se := congrArg Prod.snd heq
                  rw [hvse]
                  exact hse
                · exact absurd hmem3 (List.not_mem_nil _)
            · exact Bool.noConfusion hff
          rcases hv with hvl | hvr
          · rcases List.mem_append.mp hvl with hmem | hmem
            · exact hfrom1 "Linguistic" ling e1 hce1 hmem
            · exact absurd hmem (hnot1 v)
          · rcases List.mem_append.mp hvr with hmem | hmem
            · exact absurd hmem (hnot2 v)
            · exact hfrom1 "Logical" lg e2 hce2 hmem
        obtain ⟨ses, hses, hvval⟩ := seValue_some_char hsev
        rw [hparts] at hses hvval
        exact ⟨lastRow, hlr, ses, hses, hvval⟩

unseal Rat.mul Rat.inv Rat.add Rat.sub in
/-- C3 witness: model A with rows (norec, "0.8 ± 0.1") and
(norquad, "0.5 ± 0.3 / 0.6").  The Linguistic SE is 0.15 = round2(0.3 / 2):
both its numerator and its divisor come from the *last* row (norquad), even
though the linguistic score came from norec. -/
theorem C3_se_divisor_last_record_witness :
    ∃ lastRow, ((⟨["norec", "norquad"], ["0.8 ± 0.1", "0.5 ± 0.3 / 0.6"]⟩ :
        ModelData).datasets.zip
        (⟨["norec", "norquad"], ["0.8 ± 0.1", "0.5 ± 0.3 / 0.6"]⟩ :
          ModelData).values).getLast? = some lastRow ∧
      ∃ ses, parseAll parseSe ((scoreParts lastRow.2).filter hasSeSep) = some ses ∧
        (3/20 : ℚ) = round2 (ses.sum / ((scoreParts lastRow.2).length : ℚ)) := by
  exact C3_se_divisor_last_record
    [(some "A", ⟨["norec", "norquad"], ["0.8 ± 0.1", "0.5 ± 0.3 / 0.6"]⟩)]
    [(some "A",
      [("Linguistic Average", 4/5), ("Linguistic SE", 3/20),
       ("Logical Average", 11/20), ("Logical SE", 3/20)])]
    (some "A") ⟨["norec", "norquad"], ["0.8 ± 0.1", "0.5 ± 0.3 / 0.6"]⟩
    [("Linguistic Average", 4/5), ("Linguistic SE", 3/20),
     ("Logical Average", 11/20), ("Logical SE", 3/20)] (3/20)
    (by decide) (by decide) (by decide) (by decide) (by decide)

unseal Rat.mul Rat.inv Rat.add Rat.sub in
/-- C4 counterexample: with `--all-metrics` and `--output-se`, the total
block `{"test_f1": 0.70, "test_f1_se": 0.02}` is formatted as
`"0.7 ± 0.02"` — `f"{round(0.70, 2)}"` prints `0.7`, not the claimed
`"0.70 ± 0.02"` with exactly two decimal places. -/
theorem C4_cex_formatting_drops_trailing_zero :
    alookup (some "A") (extract_all_results true true
      [⟨some "A", some "norquad", [("test_f1", 7/10), ("test_f1_se", 1/50)]⟩]).results =
      some ⟨["norquad"], ["0.7 ± 0.02"]⟩ ∧
    ("0.7 ± 0.02" : String) ≠ "0.70 ± 0.02" := by
  decide

unseal Rat.mul Rat.inv Rat.add Rat.sub in
/-- C4 (amended): every formatted numeric value is rounded to hundredths and
rendered with one or two fractional digits — Python float repr drops a
trailing zero: 0.91234 formats as "0.91", while the `--all-metrics`
`--output-se` example `{"test_f1": 0.70, "test_f1_se": 0.02}` yields
"0.7 ± 0.02", not "0.70 ± 0.02". -/
theorem C4_round_two_decimals_no_trailing_zero :
    (∀ n : ℤ, 1 ≤ (fracDigits (n.natAbs % 100)).length ∧
      (fracDigits (n.natAbs % 100)).length ≤ 2) ∧
    (∀ q : ℚ, pyRound2Str q =
      (if pyRoundInt (q * 100) < 0 then "-" else "") ++
        toString ((pyRoundInt (q * 100)).natAbs / 100) ++ "." ++
        fracDigits ((pyRoundInt (q * 100)).natAbs % 100)) ∧
    lineValue false false (⟨some "A", some "norec",
      [("test_macro_f1", 91234/100000)]⟩ : Record) = "0.91" ∧
    lineValue true true (⟨some "A", some "norquad",
      [("test_f1", 7/10), ("test_f1_se", 1/50)]⟩ : Record) = "0.7 ± 0.02" := by
  refine ⟨?_, fun q => rfl, by decide, by decide⟩
  intro n
  have hb : ∀ fr, fr < 100 →
      1 ≤ (fracDigits fr).length ∧ (fracDigits fr).length ≤ 2 := by decide
  exact hb _ (Nat.mod_lt _ (by norm_num))

/-- C5: for every model, each category average equals the arithmetic mean of
all contributing base numbers — every "/"-joined sub-value of each recorded
value in the category contributes its base number individually — rounded to
2 decimals, and the category's entry is omitted entirely when the category's
score list is empty. -/
theorem C5_category_average (ose : Bool)
    (results : List (Option String × ModelData))
    (s : List (Option String × List (String × ℚ))) (m : Option String)
    (md : ModelData)
    (hnd : (results.map Prod.fst).Nodup)
    (hm : alookup m results = some md)
    (hs : calculate_summary results ose = some s) :
    (∀ l, lingBases md = some l → l ≠ [] →
      ∃ e, alookup m s = some e ∧
        ("Linguistic Average", round2 (l.sum / (l.length : ℚ))) ∈ e) ∧
    (∀ l, logBases md = some l → l ≠ [] →
      ∃ e, alookup m s = some e ∧
        ("Logical Average", round2 (l.sum / (l.length : ℚ))) ∈ e) ∧
    (lingBases md = some [] →
      ∀ e, alookup m s = some e → ∀ w, ("Linguistic Average", w) ∉ e) ∧
    (logBases md = some [] →
      ∀ e, alookup m s = some e → ∀ w, ("Logical Average", w) ∉ e) := by
  obtain ⟨e0, he0, hlook⟩ := calc_lookup hnd hs hm
  unfold summarizeModel at he0
  cases hloop : modelLoop (md.datasets.zip md.values) with
  | none =>
    simp only [hloop] at he0
    exact Option.noConfusion he0
  | some trip =>
    obtain ⟨ling, lg, parts⟩ := trip
    simp only [hloop] at he0
    cases hce1 : categoryEntries ose "Linguistic" ling parts with
    | none =>
      simp only [hce1] at he0
      exact Option.noConfusion he0
    | some e1 =>
      cases hce2 : categoryEntries ose "Logical" lg parts with
      | none =>
        simp only [hce1, hce2] at he0
        exact Option.noConfusion he0
      | some e2 =>
        simp only [hce1, hce2] at he0
        have he12 : e0 = e1 ++ e2 := (Option.some_inj.mp he0).symm
        obtain ⟨hbl, hbg, _, _⟩ := modelLoop_char _ _ _ _ hloop
        have havg : ∀ (label : String) (scores : List ℚ) (ee : List (String × ℚ)),
            categoryEntries ose label scores parts = some ee → scores ≠ [] →
            (label ++ " Average",
              round2 (scores.sum / (scores.length : ℚ))) ∈ ee := by
          intro label scores ee hce hne
          rcases categoryEntries_char hce with ⟨hnil, _⟩ |
            ⟨_, ⟨_, se, _, rfl⟩ | ⟨_, rfl⟩⟩
          · exact absurd hnil hne
          · exact List.mem_cons_self _ _
          · exact List.mem_cons_self _ _
        refine ⟨?_, ?_, ?_, ?_⟩
        · intro l hl hlne
          have hl2 : l = ling := by
            rw [show lingBases md = some ling from hbl] at hl
            exact (Option.some_inj.mp hl).symm
          subst hl2
          have hmem : ("Linguistic Average",
              round2 (l.sum / (l.length : ℚ))) ∈ e1 := havg _ _ _ hce1 hlne
          have hne0 : ¬(e0.isEmpty = true) := by
            rw [he12]
            intro hh
            rw [List.isEmpty_iff] at hh
            rw [List.append_eq_nil.mp hh |>.1] at hmem
            exact absurd hmem (List.not_mem_nil _)
          refine ⟨e0, by rw [hlook, if_neg hne0], ?_⟩
          rw [he12]
          exact List.mem_append_left _ hmem
        · intro l hl hlne
          have hl2 : l = lg := by
            rw [show logBases md = some lg from hbg] at hl
            exact (Option.some_inj.mp hl).symm
          subst hl2
          have hmem : ("Logical Average",
              round2 (l.sum / (l.length : ℚ))) ∈ e2 := havg _ _ _ hce2 hlne
          have hne0 : ¬(e0.isEmpty = true) := by
            rw [he12]
            intro hh
            rw [List.isEmpty_iff] at hh
            rw [List.append_eq_nil.mp hh |>.2] at hmem
            exact absurd hmem (List.not_mem_nil _)
          refine ⟨e0, by rw [hlook, if_neg hne0], ?_⟩
          rw [he12]
          exact List.mem_append_right _ hmem
        · intro hl e he w hmem
          have hlnil : ling = [] := by
            rw [show lingBases md = some ling from hbl] at hl
            exact Option.some_inj.mp hl
          have he1nil : e1 = [] := by
            rcases categoryEntries_char hce1 with ⟨_, h⟩ | ⟨hne, _⟩
            · exact h
            · exact absurd hlnil hne
          have hee0 : e = e0 := by
            by_cases hie : e0.isEmpty
            · rw [hlook, if_pos hie] at he
              exact Option.noConfusion he
            · rw [hlook, if_neg hie] at he
              exact (Option.some_inj.mp he).symm
          rw [hee0, he12, he1nil, List.nil_append] at hmem
          rcases categoryEntries_labels hce2 _ _ hmem with h | h <;>
            exact absurd h (by decide)
        · intro hl e he w hmem
          have hlnil : lg = [] := by
            rw [show logBases md = some lg from hbg] at hl
            exact Option.some_inj.mp hl
          have he2nil : e2 = [] := by
            rcases categoryEntries_char hce2 with ⟨_, h⟩ | ⟨hne, _⟩
            · exact h
            · exact absurd hlnil hne
          have hee0 : e = e0 := by
            by_cases hie : e0.isEmpty
            · rw [hlook, if_pos hie] at he
              exact Option.noConfusion he
            · rw [hlook, if_neg hie] at he
              exact (Option.some_inj.mp he).symm
          rw [hee0, he12, he2nil, List.append_nil] at hmem
          rcases categoryEntries_labels hce1 _ _ hmem with h | h <;>
            exact absurd h (by decide)

unseal Rat.mul Rat.inv Rat.add Rat.sub in
/-- C5 witness: model A with only the linguistic dataset norec at
test_macro_f1 = 0.80: the summary holds Linguistic Average 4/5 = 0.80. -/
theorem C5_category_average_witness :
    ∃ e, alookup (some "A")
        [(some "A", [("Linguistic Average", (4/5 : ℚ))])] = some e ∧
      ("Linguistic Average",
        round2 (([(4/5 : ℚ)]).sum / ((([(4/5 : ℚ)]).length : ℕ) : ℚ))) ∈ e := by
  exact (C5_category_average false
    (extract_all_results false false
      [⟨some "A", some "norec", [("test_macro_f1", 4/5)]⟩]).results
    [(some "A", [("Linguistic Average", (4/5 : ℚ))])]
    (some "A") ⟨["norec"], ["0.8"]⟩
    (by decide) (by decide) (by decide)).1 [4/5] (by decide) (by decide)

end DedupScandEval
